import Mathlib

set_option linter.unusedVariables false
set_option maxRecDepth 200000

/-!
Verification of the requirement-analysis extraction pipeline implemented in
src/backend/ai_test_cases/src/agents/requirement_analyst.py.

The Python module is shallowly embedded here.  Strings are modelled as
`List Char` (one entry per Unicode code point, matching Python's `str`
indexing and `len`), Python runtime values as the inductive type `PyVal`,
and every function of the module that the claims touch is translated into
an executable Lean function of the same name (Python's leading underscores
are dropped).  `json.loads` is modelled by a fuelled recursive-descent
decoder `json_loads` implementing the strict JSON grammar that Python's
`json` module accepts.
-/

/-- Whitespace accepted between tokens by Python's `json.loads`
(space, tab, newline, carriage return). -/
def isJWs (c : Char) : Bool :=
  c = ' ' || c = '\t' || c = '\n' || c = '\r'

/-- Whitespace removed by Python's `str.strip()`.  Python strips all Unicode
whitespace; the inputs handled here only ever carry the ASCII forms, which is
what we model (space, tab, newline, carriage return, vertical tab, form feed). -/
def isPyWs (c : Char) : Bool :=
  c = ' ' || c = '\t' || c = '\n' || c = '\r' ||
  c = Char.ofNat 11 || c = Char.ofNat 12

/-- Whitespace matched by the regex class backslash-s in Python's `re`
module for ASCII text (space, tab, newline, carriage return, vertical tab,
form feed). -/
def isReWs (c : Char) : Bool :=
  c = ' ' || c = '\t' || c = '\n' || c = '\r' ||
  c = Char.ofNat 11 || c = Char.ofNat 12

/-- Model of Python's `str.strip()`: drop leading and trailing whitespace. -/
def pyStrip (l : List Char) : List Char :=
  ((l.dropWhile isPyWs).reverse.dropWhile isPyWs).reverse

/-- Model of Python's `sub in s` substring test. -/
def containsSub (pat s : List Char) : Bool :=
  match s with
  | [] => pat.isEmpty
  | _ :: t => pat.isPrefixOf s || containsSub pat t

/-- Model of Python's `s.find(pat)` restricted to successful search:
index of the leftmost occurrence of `pat` in `s`. -/
def findSubFrom (pat s : List Char) (i : Nat) : Option Nat :=
  match s with
  | [] => if pat.isEmpty then some i else none
  | _ :: t => if pat.isPrefixOf s then some i else findSubFrom pat t (i + 1)

/-- Model of Python's `s.find(pat)` (as an `Option` instead of `-1`). -/
def findSub (pat s : List Char) : Option Nat :=
  findSubFrom pat s 0

/-- All start indices of occurrences of `pat` in `s` (offset by `i`). -/
def occIdxFrom (pat s : List Char) (i : Nat) : List Nat :=
  match s with
  | [] => if pat.isEmpty then [i] else []
  | _ :: t =>
    (if pat.isPrefixOf s then [i] else []) ++ occIdxFrom pat t (i + 1)

/-- Model of Python's `s.rfind(pat)` (as an `Option` instead of `-1`). -/
def rfindSub (pat s : List Char) : Option Nat :=
  (occIdxFrom pat s 0).getLast?

/-- Python `s.rfind(pat)` with the `-1` convention, as an integer. -/
def rfindI (pat s : List Char) : Int :=
  match rfindSub pat s with
  | some i => (i : Int)
  | none => -1

/-- Model of Python's `s.replace(c, rep)` for a single-character pattern
(the only form of `str.replace` the module uses). -/
def replaceChar (s : List Char) (c : Char) (rep : List Char) : List Char :=
  match s with
  | [] => []
  | a :: t => if a = c then rep ++ replaceChar t c rep else a :: replaceChar t c rep

/-- Model of Python's `s.replace(c, '')` (deleting a character) as a filter. -/
def removeChar (s : List Char) (c : Char) : List Char :=
  replaceChar s c []

/-- Model of Python's `s.split(sep)` for a single separator character:
splits on every occurrence and keeps empty pieces, as Python does. -/
def splitOnChar (sep : Char) (s : List Char) : List (List Char) :=
  match s with
  | [] => [[]]
  | c :: t =>
    let r := splitOnChar sep t
    if c = sep then [] :: r
    else
      match r with
      | [] => [[c]]
      | h :: t2 => (c :: h) :: t2

/-- Model of `re.split` on a class of separator characters: splits on every
character of `seps`, keeping empty pieces. -/
def splitOnAny (seps : List Char) (s : List Char) : List (List Char) :=
  match s with
  | [] => [[]]
  | c :: t =>
    let r := splitOnAny seps t
    if seps.contains c then [] :: r
    else
      match r with
      | [] => [[c]]
      | h :: t2 => (c :: h) :: t2

/-- Lowercase an ASCII letter; other characters (including all the CJK
characters used by the module's heading tables) are unchanged, matching
what Python's `str.lower()` does on the inputs in scope. -/
def asciiLower (c : Char) : Char :=
  if 'A' ≤ c ∧ c ≤ 'Z' then Char.ofNat (c.toNat + 32) else c

/-- Model of Python's `str.lower()` on the character lists in scope. -/
def lowerL (l : List Char) : List Char :=
  l.map asciiLower

/-- ASCII decimal digit test (Python's `str.isdigit` on the inputs in scope). -/
def isAsciiDigit (c : Char) : Bool :=
  '0' ≤ c ∧ c ≤ '9'

/-- Decimal digit character for a single digit value. -/
def digitChar (n : Nat) : Char :=
  Char.ofNat (48 + n)

/-- Decimal representation with explicit fuel (so that the definition is
structurally recursive and computes by `rfl`); `fuel` bounds the number of
digits. -/
def toDecF : Nat → Nat → List Char
  | 0, _ => []
  | f + 1, n =>
    if n < 10 then [digitChar n]
    else toDecF f (n / 10) ++ [digitChar (n % 10)]

/-- Decimal representation of a natural number, most significant digit first
(`n + 1` units of fuel always suffice since a number has at most `n + 1`
digits). -/
def toDec (n : Nat) : List Char :=
  toDecF (n + 1) n

/-- Value of a digit list (inverse of `toDec` up to leading zeros). -/
def fromDec (l : List Char) : Nat :=
  l.foldl (fun a c => a * 10 + (c.toNat - 48)) 0

/-- Model of Python's format `f"TS{n:03d}"`: the digits of `n` left-padded
with zeros to width three, prefixed with `TS`. -/
def fmtTS (n : Nat) : List Char :=
  'T' :: 'S' :: (List.replicate (3 - (toDec n).length) '0' ++ toDec n)

/-- Python runtime values flowing through the module: the JSON scalar and
container values produced by `json.loads`, plus `TestScenario` objects.

Modelled from the spec: the `TestScenario` class itself lives in
src/schemas/communication.py, which is not part of the source tree; per the
spec (section 3) it is a record of a string `id`, a string `description` and
a list-of-strings `test_cases`, and its constructor stores the values it is
given. -/
inductive PyVal where
  | pyStr (s : List Char)
  | pyNum (tok : List Char)
  | pyBool (b : Bool)
  | pyNone
  | pyList (xs : List PyVal)
  | pyDict (kvs : List (List Char × PyVal))
  | pyScenario (id : List Char) (description : List Char)
      (test_cases : List (List Char))

open PyVal

/-- Python truthiness of the values in scope: empty strings, empty lists,
empty dicts, zero-like numbers, `False` and `None` are falsy; `TestScenario`
objects are always truthy. -/
def pyTruthy : PyVal → Bool
  | pyStr s => ¬ s.isEmpty
  | pyNum tok => ¬ (tok = ['0'] ∨ tok = ['-', '0'] ∨ tok = ['0', '.', '0'])
  | pyBool b => b
  | pyNone => false
  | pyList xs => ¬ xs.isEmpty
  | pyDict kvs => ¬ kvs.isEmpty
  | pyScenario _ _ _ => true

/-- `isinstance(v, list)` for modelled values. -/
def isPyList : PyVal → Bool
  | pyList _ => true
  | _ => false

/-- `isinstance(v, dict)` for modelled values. -/
def isPyDict : PyVal → Bool
  | pyDict _ => true
  | _ => false

/-- Lookup in a modelled Python dict (keys are unique by construction, see
`insertKV`). -/
def lookupD (kvs : List (List Char × PyVal)) (k : List Char) : Option PyVal :=
  match kvs with
  | [] => none
  | (k2, v) :: t => if k2 = k then some v else lookupD t k

/-- Python dict assignment `d[k] = v`: replaces the value in place if the key
is present (keeping its position), otherwise appends the new pair. -/
def insertKV (kvs : List (List Char × PyVal)) (k : List Char) (v : PyVal) :
    List (List Char × PyVal) :=
  match kvs with
  | [] => [(k, v)]
  | (k2, v2) :: t =>
    if k2 = k then (k2, v) :: t else (k2, v2) :: insertKV t k v

/-- Python `d.get(k, dflt)`. -/
def getD (kvs : List (List Char × PyVal)) (k : List Char) (dflt : PyVal) :
    PyVal :=
  match lookupD kvs k with
  | some v => v
  | none => dflt

/-- Hexadecimal digit value, for JSON `\uXXXX` escapes. -/
def hexVal (c : Char) : Option Nat :=
  if '0' ≤ c ∧ c ≤ '9' then some (c.toNat - 48)
  else if 'a' ≤ c ∧ c ≤ 'f' then some (c.toNat - 87)
  else if 'A' ≤ c ∧ c ≤ 'F' then some (c.toNat - 55)
  else none

/-- Four hexadecimal digits decoded to a character (JSON `\uXXXX`). -/
def hex4 : List Char → Option (Char × List Char)
  | h1 :: h2 :: h3 :: h4 :: t3 =>
    match hexVal h1, hexVal h2, hexVal h3, hexVal h4 with
    | some a, some b, some c2, some d =>
      some (Char.ofNat (((a * 16 + b) * 16 + c2) * 16 + d), t3)
    | _, _, _, _ => none
  | _ => none

/-- The single-character JSON string escapes. -/
def escChar (e : Char) : Option Char :=
  if e = '"' then some '"'
  else if e = '\\' then some '\\'
  else if e = '/' then some '/'
  else if e = 'b' then some (Char.ofNat 8)
  else if e = 'f' then some (Char.ofNat 12)
  else if e = 'n' then some '\n'
  else if e = 'r' then some '\r'
  else if e = 't' then some '\t'
  else none

/-- Body of a JSON string, read after the opening quote, in the strict mode
of Python's `json.loads`: raw control characters (code points below 32) are
rejected, the single-character escapes and `\uXXXX` are decoded (`u` is
dispatched first here, which is equivalent since it is not in the
single-character table).  Returns the decoded characters and the input
remaining after the closing quote.  Fuelled to stay structurally recursive;
one unit of fuel per input character suffices. -/
def pStrBody : Nat → List Char → List Char → Option (List Char × List Char)
  | 0, _, _ => none
  | _ + 1, [], _ => none
  | f + 1, c :: t, acc =>
    if c = '"' then some (acc.reverse, t)
    else if c = '\\' then
      match t with
      | [] => none
      | e :: t2 =>
        if e = 'u' then
          match hex4 t2 with
          | some (u, t3) => pStrBody f t3 (u :: acc)
          | none => none
        else
          match escChar e with
          | some ec => pStrBody f t2 (ec :: acc)
          | none => none
    else if c.toNat < 32 then none
    else pStrBody f t (c :: acc)

/-- One or more ASCII digits, split off the front of the input. -/
def takeDigits1 (s : List Char) : Option (List Char × List Char) :=
  let d := s.takeWhile isAsciiDigit
  if d.isEmpty then none else some (d, s.dropWhile isAsciiDigit)

/-- Integer part of a JSON number: `0 | [1-9][0-9]*`. -/
def pIntPart : List Char → Option (List Char × List Char)
  | '0' :: t0 => some (['0'], t0)
  | c :: t =>
    if isAsciiDigit c then
      match takeDigits1 (c :: t) with
      | some (d, r) => some (d, r)
      | none => none
    else none
  | [] => none

/-- JSON number token start per the grammar `json.loads` accepts:
`-? (0 | [1-9][0-9]*)`.  Returns the token characters and the rest of the
input. -/
def pNumTok (s : List Char) : Option (List Char × List Char) :=
  match s with
  | '-' :: t =>
    match pIntPart t with
    | some (d, r) => some ('-' :: d, r)
    | none => none
  | _ => pIntPart s

/-- Optional fraction part `(. [0-9]+)?` appended to a number token. -/
def pFrac (tok s : List Char) : Option (List Char × List Char) :=
  match s with
  | '.' :: t =>
    match takeDigits1 t with
    | some (d, r) => some (tok ++ '.' :: d, r)
    | none => none
  | _ => some (tok, s)

/-- Sign of an exponent part. -/
def pExpSign : List Char → List Char × List Char
  | '+' :: u => (['+'], u)
  | '-' :: u => (['-'], u)
  | t => ([], t)

/-- Optional exponent part `([eE] [+-]? [0-9]+)?` appended to a number
token. -/
def pExp (tok s : List Char) : Option (List Char × List Char) :=
  match s with
  | c :: t =>
    if c = 'e' ∨ c = 'E' then
      match takeDigits1 (pExpSign t).2 with
      | some (d, r) => some (tok ++ c :: ((pExpSign t).1 ++ d), r)
      | none => none
    else some (tok, s)
  | [] => some (tok, s)

/-- Full JSON number token: integer part, then fraction, then exponent. -/
def pNum (s : List Char) : Option (List Char × List Char) :=
  match pNumTok s with
  | some (tok, r) =>
    match pFrac tok r with
    | some (tok2, r2) => pExp tok2 r2
    | none => none
  | none => none

/-- Parsing modes of the JSON decoder: a value, an object body (just after
the opening brace), the members of a non-empty object, an array body, the
elements of a non-empty array. -/
inductive JMode where
  | mVal : JMode
  | mObj : JMode
  | mMembers : List (List Char × PyVal) → JMode
  | mArr : JMode
  | mElems : List PyVal → JMode

/-- One recursive-descent JSON decoder covering every mode, structurally
recursive on its fuel so that it computes by `rfl`.  It follows exactly the
strict grammar Python's `json.loads` accepts on the document class in scope
(`NaN` / `Infinity` extensions never arise here).  Duplicate object keys are
resolved last-wins via `insertKV`, as in CPython. -/
def jstep : Nat → JMode → List Char → Option (PyVal × List Char)
  | 0, _, _ => none
  | n + 1, JMode.mVal, cs =>
    match cs.dropWhile isJWs with
    | '{' :: r => jstep n JMode.mObj r
    | '[' :: r => jstep n JMode.mArr r
    | '"' :: r =>
      match pStrBody (r.length + 1) r [] with
      | some (s, r2) => some (pyStr s, r2)
      | none => none
    | 't' :: 'r' :: 'u' :: 'e' :: r => some (pyBool true, r)
    | 'f' :: 'a' :: 'l' :: 's' :: 'e' :: r => some (pyBool false, r)
    | 'n' :: 'u' :: 'l' :: 'l' :: r => some (pyNone, r)
    | c :: r =>
      if c = '-' ∨ isAsciiDigit c then
        match pNum (c :: r) with
        | some (tok, r2) => some (pyNum tok, r2)
        | none => none
      else none
    | [] => none
  | n + 1, JMode.mObj, cs =>
    match cs.dropWhile isJWs with
    | '}' :: r => some (pyDict [], r)
    | _ => jstep n (JMode.mMembers []) cs
  | n + 1, JMode.mMembers acc, cs =>
    match cs.dropWhile isJWs with
    | '"' :: r =>
      match pStrBody (r.length + 1) r [] with
      | some (k, r2) =>
        match r2.dropWhile isJWs with
        | ':' :: r3 =>
          match jstep n JMode.mVal r3 with
          | some (v, r4) =>
            match r4.dropWhile isJWs with
            | ',' :: r5 => jstep n (JMode.mMembers (insertKV acc k v)) r5
            | '}' :: r5 => some (pyDict (insertKV acc k v), r5)
            | _ => none
          | none => none
        | _ => none
      | none => none
    | _ => none
  | n + 1, JMode.mArr, cs =>
    match cs.dropWhile isJWs with
    | ']' :: r => some (pyList [], r)
    | _ => jstep n (JMode.mElems []) cs
  | n + 1, JMode.mElems acc, cs =>
    match jstep n JMode.mVal cs with
    | some (v, r) =>
      match r.dropWhile isJWs with
      | ',' :: r2 => jstep n (JMode.mElems (acc ++ [v])) r2
      | ']' :: r2 => some (pyList (acc ++ [v]), r2)
      | _ => none
    | none => none

/-- Model of Python's `json.loads`: decode one JSON value and require the
rest of the input to be whitespace.  The fuel `3 * length + 9` always
suffices: every three nested mode steps consume at least one character. -/
def json_loads (s : List Char) : Option PyVal :=
  match jstep (3 * s.length + 9) JMode.mVal s with
  | some (v, r) => if r.all isJWs then some v else none
  | none => none

/-- List-of-characters form of a string literal. -/
def S (s : String) : List Char :=
  s.data

/-- The backtick character (written via its code point). -/
def btick : Char :=
  Char.ofNat 96

/-- Three backticks, the code-fence delimiter. -/
def tick3 : List Char :=
  [btick, btick, btick]

/-- `startswith` on character lists. -/
def startsWithL (pat s : List Char) : Bool :=
  pat.isPrefixOf s

/-- `endswith` on character lists. -/
def endsWithL (pat s : List Char) : Bool :=
  pat.isSuffixOf s

/-- Brace-counting scan of `_is_valid_json_format`: one pass incrementing on
an opening brace and decrementing on a closing one, failing as soon as the
count goes negative, succeeding iff the final count is zero. -/
def braceBalanced : List Char → Int → Bool
  | [], bal => bal = 0
  | c :: t, bal =>
    let bal2 : Int := if c = '{' then bal + 1 else if c = '}' then bal - 1 else bal
    if bal2 < 0 then false else braceBalanced t bal2

/-- Model of `_is_valid_json_format`: after stripping, the candidate must
start with an opening brace and end with a closing one, contain at least one
double quote, and pass the balanced-brace scan. -/
def is_valid_json_format (s : List Char) : Bool :=
  let t := pyStrip s
  startsWithL ['{'] t && endsWithL ['}'] t && containsSub ['"'] t &&
  braceBalanced t 0

/-- Model of the first substitution of `_fix_json_format`, which is
`re.sub` with pattern `([^\\])"([^"]*?)([^\\])"` and replacement
backref1 quote backref2 backref3 quote.  The replacement text is exactly the
matched text (group 1, a quote, group 2, group 3, a quote), so the
substitution is the identity on every string; it is modelled as such. -/
def fixQuoteSub (s : List Char) : List Char :=
  s

/-- Model of `_fix_json_format` (the conservative repair pass): the identity
quote substitution, escaping of raw newline / carriage return / tab
characters, and, when the stripped result opens with a brace but does not
close with one, truncation at the last complete key/value boundary (the
right-most of the three patterns quote-comma, quote-bracket-comma,
quote-brace-comma, found with `rfind`) followed by a closing brace. -/
def fix_json_format (s : List Char) : List Char :=
  let s1 := fixQuoteSub s
  let s2 := replaceChar s1 '\n' ['\\', 'n']
  let s3 := replaceChar s2 '\r' ['\\', 'r']
  let s4 := replaceChar s3 '\t' ['\\', 't']
  if startsWithL ['{'] (pyStrip s4) ∧ ¬ endsWithL ['}'] (pyStrip s4) then
    let p : Int :=
      max (max (rfindI (S ("\",")) s4) (rfindI (S ("\"],")) s4))
        (rfindI (S ("\"\x7d,")) s4)
    if p > 0 then s4.take (p.toNat + 2) ++ ['}'] else s4
  else s4

/-- ASCII letter test. -/
def isAsciiAlpha (c : Char) : Bool :=
  ('a' ≤ c ∧ c ≤ 'z') ∨ ('A' ≤ c ∧ c ≤ 'Z')

/-- Identifier-continuation character of the bare-key regex
(`[a-zA-Z0-9_]`). -/
def isIdentChar (c : Char) : Bool :=
  isAsciiAlpha c || isAsciiDigit c || c = '_'

/-- Split a leading identifier (`[a-zA-Z_][a-zA-Z0-9_]*`, greedy) off the
input. -/
def identTake (s : List Char) : Option (List Char × List Char) :=
  match s with
  | c :: t =>
    if isAsciiAlpha c || c = '_' then
      some (c :: t.takeWhile isIdentChar, t.dropWhile isIdentChar)
    else none
  | [] => none

/-- First aggressive substitution: `re.sub` of `(\])\s*(\[)` with
backref1 comma backref2 — a comma is inserted between adjacent array
delimiters and the intervening whitespace is dropped.  Fuelled to stay
structurally recursive; the fuel is at least the input length. -/
def subAdjArrF : Nat → List Char → List Char
  | 0, s => s
  | f + 1, [] => []
  | f + 1, c :: rest =>
    if c = ']' then
      match rest.dropWhile isReWs with
      | '[' :: tail => ']' :: ',' :: '[' :: subAdjArrF f tail
      | _ => ']' :: subAdjArrF f rest
    else c :: subAdjArrF f rest

/-- Second aggressive substitution: `re.sub` of `(")\s*(")` with
backref1 comma backref2 — a comma is inserted between adjacent quotes and
the intervening whitespace is dropped. -/
def subAdjQuoteF : Nat → List Char → List Char
  | 0, s => s
  | f + 1, [] => []
  | f + 1, c :: rest =>
    if c = '"' then
      match rest.dropWhile isReWs with
      | '"' :: tail => '"' :: ',' :: '"' :: subAdjQuoteF f tail
      | _ => '"' :: subAdjQuoteF f rest
    else c :: subAdjQuoteF f rest

/-- Third aggressive substitution: `re.sub` of
`([{,])\s*([a-zA-Z_][a-zA-Z0-9_]*)\s*:` with backref1 quote backref2 quote
colon — bare object keys are quoted and the surrounding whitespace dropped. -/
def subBareKeyF : Nat → List Char → List Char
  | 0, s => s
  | f + 1, [] => []
  | f + 1, c :: rest =>
    if c = '{' ∨ c = ',' then
      match identTake (rest.dropWhile isReWs) with
      | some (name, after) =>
        match after.dropWhile isReWs with
        | ':' :: tail => c :: '"' :: (name ++ '"' :: ':' :: subBareKeyF f tail)
        | _ => c :: subBareKeyF f rest
      | none => c :: subBareKeyF f rest
    else c :: subBareKeyF f rest

/-- Lazy body of the bare-value regex `[a-zA-Z0-9\s]*?` followed by the
delimiter class `[,}]`: collect class characters until the first comma or
closing brace; any other character kills the match. -/
def scanDBody : List Char → List Char → Option (List Char × Char × List Char)
  | [], _ => none
  | c :: t, acc =>
    if c = ',' ∨ c = '}' then some (acc.reverse, c, t)
    else if isAsciiAlpha c || isAsciiDigit c || isReWs c then scanDBody t (c :: acc)
    else none

/-- Fourth aggressive substitution: `re.sub` of
`:\s*([a-zA-Z][a-zA-Z0-9\s]*?)([,}])` with colon space quote backref1 quote
backref2 — bare scalar values before a separator or closing brace are
quoted. -/
def subBareValF : Nat → List Char → List Char
  | 0, s => s
  | f + 1, [] => []
  | f + 1, c :: rest =>
    if c = ':' then
      match rest.dropWhile isReWs with
      | d :: u =>
        if isAsciiAlpha d then
          match scanDBody u [d] with
          | some (g, delim, tail) =>
            ':' :: ' ' :: '"' :: (g ++ '"' :: delim :: subBareValF f tail)
          | none => ':' :: subBareValF f rest
        else ':' :: subBareValF f rest
      | [] => ':' :: subBareValF f rest
    else c :: subBareValF f rest

/-- Lazy body of the bare-array-element regex: group characters
(`[a-zA-Z0-9\s]`, lazily) with, at each boundary, a first attempt to close
via `\s*` and the delimiter class `[,\]]`. -/
def scanEBody : List Char → List Char → Option (List Char × Char × List Char)
  | s, acc =>
    match s.dropWhile isReWs with
    | c :: t =>
      if c = ',' ∨ c = ']' then some (acc.reverse, c, t)
      else
        match s with
        | c2 :: t2 =>
          if isAsciiAlpha c2 || isAsciiDigit c2 || isReWs c2 then
            scanEBody t2 (c2 :: acc)
          else none
        | [] => none
    | [] => none

/-- Fifth aggressive substitution: `re.sub` of
`\[\s*([a-zA-Z][a-zA-Z0-9\s]*?)\s*([,\]])` with bracket quote backref1 quote
backref2 — bare array string elements are quoted. -/
def subBareElemF : Nat → List Char → List Char
  | 0, s => s
  | f + 1, [] => []
  | f + 1, c :: rest =>
    if c = '[' then
      match rest.dropWhile isReWs with
      | d :: u =>
        if isAsciiAlpha d then
          match scanEBody u [d] with
          | some (g, delim, tail) =>
            '[' :: '"' :: (g ++ '"' :: delim :: subBareElemF f tail)
          | none => '[' :: subBareElemF f rest
        else '[' :: subBareElemF f rest
      | [] => '[' :: subBareElemF f rest
    else c :: subBareElemF f rest

/-- Closing-brace repair at the end of `_fix_json_aggressive`: when the
stripped string opens with a brace but does not close with one, cut at the
right-most of the four `rfind` patterns and append a closing brace, with the
source's character-based case split. -/
def objEndFix (s : List Char) : List Char :=
  if startsWithL ['{'] (pyStrip s) ∧ ¬ endsWithL ['}'] (pyStrip s) then
    let p : Int :=
      max (max (rfindI (S ("\",")) s) (rfindI (S ("\"],")) s))
        (max (rfindI (S ("\"\x7d,")) s) (rfindI (S ("\"")) s))
    if p > 0 then
      match s.get? p.toNat with
      | some ',' => s.take p.toNat ++ ['}']
      | some '"' => s.take (p.toNat + 1) ++ ['}']
      | _ => s.take (p.toNat + 2) ++ ['}']
    else s
  else s

/-- Closing-bracket repair at the end of `_fix_json_aggressive`, the array
counterpart of `objEndFix`. -/
def arrEndFix (s : List Char) : List Char :=
  if startsWithL ['['] (pyStrip s) ∧ ¬ endsWithL [']'] (pyStrip s) then
    let p : Int :=
      max (max (rfindI (S ("\",")) s) (rfindI (S ("\x7d,")) s))
        (max (rfindI (S ("\"")) s) (rfindI (S ("\x7d")) s))
    if p > 0 then
      match s.get? p.toNat with
      | some ',' => s.take p.toNat ++ [']']
      | some '"' => s.take (p.toNat + 1) ++ [']']
      | some '}' => s.take (p.toNat + 1) ++ [']']
      | _ => s.take (p.toNat + 2) ++ [']']
    else s
  else s

/-- Model of `_fix_json_aggressive`: the five substitutions in source order
followed by the two end-delimiter repairs. -/
def fix_json_aggressive (s : List Char) : List Char :=
  let s1 := subAdjArrF (s.length + 1) s
  let s2 := subAdjQuoteF (s1.length + 1) s1
  let s3 := subBareKeyF (s2.length + 1) s2
  let s4 := subBareValF (s3.length + 1) s3
  let s5 := subBareElemF (s4.length + 1) s4
  arrEndFix (objEndFix s5)

/-- Model of `re.sub` removing every occurrence of three-backticks-json or
three-backticks (tried in that order at each position, as the alternation
does). -/
def stripTicksF : Nat → List Char → List Char
  | 0, s => s
  | f + 1, [] => []
  | f + 1, c :: rest =>
    if (tick3 ++ (S ("json"))).isPrefixOf (c :: rest) then
      stripTicksF f (rest.drop 6)
    else if tick3.isPrefixOf (c :: rest) then
      stripTicksF f (rest.drop 2)
    else c :: stripTicksF f rest

/-- Wrapper for `stripTicksF` with sufficient fuel. -/
def stripTicks (s : List Char) : List Char :=
  stripTicksF (s.length + 1) s

/-- The quoted discriminating key `"functional_requirements"` used by the
second locator pattern and the first fallback pattern. -/
def qFrKey : List Char :=
  S ("\"functional_requirements\"")

/-- Body of the fenced-block pattern after the opening fence (and optional
`json` tag): `\s*` then the group `{\s*".*?}` (lazily closed) followed by
`\s*` and a closing fence.  Returns the group. -/
def lazyCloseBrace : List Char → List Char → Option (List Char)
  | [], _ => none
  | c :: t, acc =>
    if c = '}' ∧ tick3.isPrefixOf (t.dropWhile isReWs) then some acc.reverse
    else lazyCloseBrace t (c :: acc)

/-- Fenced-body matcher: whitespace, an opening brace, whitespace, a quote,
then the lazy tail up to the first closing brace that is followed by
whitespace and a closing fence. -/
def fencedBody (w : List Char) : Option (List Char) :=
  match w.dropWhile isReWs with
  | '{' :: w2 =>
    let wsA := w2.takeWhile isReWs
    match w2.dropWhile isReWs with
    | '"' :: w3 =>
      match lazyCloseBrace w3 [] with
      | some mid => some ('{' :: wsA ++ '"' :: mid ++ ['}'])
      | none => none
    | _ => none
  | _ => none

/-- First locator pattern: a fenced block explicitly marked as structured
data (the regex with three backticks, an optional `json` tag, and a lazily
delimited brace group).  Leftmost fence start wins; at each fence the tagged
alternative is preferred, as the regex engine does. -/
def findP1 : List Char → Option (List Char)
  | [] => none
  | c :: t =>
    if tick3.isPrefixOf (c :: t) then
      let u := t.drop 2
      let withTag : Option (List Char) :=
        if (S ("json")).isPrefixOf u then fencedBody (u.drop 4) else none
      match withTag with
      | some g => some g
      | none =>
        match fencedBody u with
        | some g => some g
        | none => findP1 t
    else findP1 t

/-- Second locator pattern, the greedy
brace–anything–quoted-key–anything–brace regex: the match runs from the
first opening brace that still has a key occurrence (with a closing brace
after it) somewhere to its right, up to the last closing brace of the whole
text. -/
def findP2 (s : List Char) : Option (List Char) :=
  match (occIdxFrom ['}'] s 0).getLast? with
  | none => none
  | some k =>
    let validKey := (occIdxFrom qFrKey s 0).filter fun j => j + qFrKey.length ≤ k
    match validKey.getLast? with
    | none => none
    | some jmax =>
      match (occIdxFrom ['{'] s 0).head? with
      | some i =>
        if i < jmax then some ((s.drop i).take (k - i + 1)) else none
      | none => none

/-- Third locator pattern, the greedy brace–anything–brace regex: from the
first opening brace to the last closing brace, provided the latter comes
later. -/
def findP3 (s : List Char) : Option (List Char) :=
  match (occIdxFrom ['{'] s 0).head?, (occIdxFrom ['}'] s 0).getLast? with
  | some i, some k => if i < k then some ((s.drop i).take (k - i + 1)) else none
  | _, _ => none

/-- Fourth locator pattern: the smallest brace span with no nested braces
containing at least two quotes (regex brace, non-braces, quote, non-braces,
quote, non-braces, brace); leftmost opening brace wins. -/
def findP4 : List Char → Option (List Char)
  | [] => none
  | c :: t =>
    if c = '{' then
      let span := t.takeWhile fun x => x ≠ '{' ∧ x ≠ '}'
      match t.dropWhile (fun x => x ≠ '{' ∧ x ≠ '}') with
      | '}' :: _ =>
        if 2 ≤ (span.filter (fun x => x = '"')).length then
          some ('{' :: span ++ ['}'])
        else findP4 t
      | _ => findP4 t
    else findP4 t

/-- Fifth locator pattern: any smallest flat single-level brace span
(regex brace, non-braces, brace). -/
def findP5 : List Char → Option (List Char)
  | [] => none
  | c :: t =>
    if c = '{' then
      let span := t.takeWhile fun x => x ≠ '{' ∧ x ≠ '}'
      match t.dropWhile (fun x => x ≠ '{' ∧ x ≠ '}') with
      | '}' :: _ => some ('{' :: span ++ ['}'])
      | _ => findP5 t
    else findP5 t

/-- The ordered locator chain of `analyze`: each pattern is tried only if
the previous one yielded no match, and the first match wins. -/
def findJsonMatch (s : List Char) : Option (List Char) :=
  match findP1 s with
  | some g => some g
  | none =>
    match findP2 s with
    | some g => some g
    | none =>
      match findP3 s with
      | some g => some g
      | none =>
        match findP4 s with
        | some g => some g
        | none => findP5 s

/-- Abbreviation for the modelled Python dict type used for analysis
records. -/
abbrev PyDict := List (List Char × PyVal)

/-- Key `functional_requirements`. -/
def frK : List Char :=
  S ("functional_requirements")

/-- Key `non_functional_requirements`. -/
def nfrK : List Char :=
  S ("non_functional_requirements")

/-- Key `test_scenarios`. -/
def tsK : List Char :=
  S ("test_scenarios")

/-- Key `risk_areas`. -/
def raK : List Char :=
  S ("risk_areas")

/-- The four keys required of an analysis record, in the order
`_validate_analysis_result` and `_fill_missing_requirements` iterate them. -/
def required4 : List (List Char) :=
  [frK, nfrK, tsK, raK]

/-- Coercion of a modelled value to the string stored in a `TestScenario`
field.  Modelled from the spec: `TestScenario` (section 3) has string
fields; every call site in the module passes a string (or the generated
default), so only the `pyStr` case is ever exercised. -/
def asStrVal : PyVal → List Char
  | pyStr s => s
  | _ => []

/-- Coercion of a modelled value to the string list stored in
`TestScenario.test_cases`.  Modelled from the spec, as for `asStrVal`. -/
def asStrList : PyVal → List (List Char)
  | pyList xs => xs.map asStrVal
  | _ => []

/-- The default scenario used by `_build_structured_result` (and, with the
same text, by `_extract_test_scenarios` and the empty-input defaults). -/
def defaultScenario : PyVal :=
  pyScenario (S ("TS001")) (S ("需要提供具体的测试场景")) []

/-- Scenario-conversion loop of `_build_structured_result`: map-shaped
entries become `TestScenario` values, with an id generated from the current
length of the converted list when the entry omits one; entries that are not
map-shaped are skipped. -/
def buildScenarios : List PyVal → List PyVal → List PyVal
  | [], acc => acc
  | x :: t, acc =>
    match x with
    | pyDict d =>
      let idv : List Char :=
        match lookupD d (S ("id")) with
        | some v => asStrVal v
        | none => fmtTS (acc.length + 1)
      let dv : List Char := asStrVal (getD d (S ("description")) (pyStr []))
      let tcv : List (List Char) := asStrList (getD d (S ("test_cases")) (pyList []))
      buildScenarios t (acc ++ [pyScenario idv dv tcv])
    | _ => buildScenarios t acc

/-- Model of `_build_structured_result`: the three plain fields are copied
with `dict.get(key, [])` — the present value verbatim, whatever its shape,
or an empty list when the key is absent; `test_scenarios` is converted
entry-wise when present and list-shaped, and otherwise replaced by a
singleton default scenario.  Key order matches the source literal (the
scenario field is assigned after the literal is built). -/
def build_structured_result (m : PyDict) : PyDict :=
  let base : PyDict :=
    [(frK, getD m frK (pyList [])),
     (nfrK, getD m nfrK (pyList [])),
     (raK, getD m raK (pyList []))]
  match lookupD m tsK with
  | some (pyList scl) => base ++ [(tsK, pyList (buildScenarios scl []))]
  | some _ => base ++ [(tsK, pyList [defaultScenario])]
  | none => base ++ [(tsK, pyList [defaultScenario])]

/-- Model of `_validate_analysis_result`: every required key must be present
and bound to a list (emptiness is not checked). -/
def validate_analysis_result (r : PyDict) : Bool :=
  required4.all fun k =>
    match lookupD r k with
    | some v => isPyList v
    | none => false

/-- The generic placeholder list `_fill_missing_requirements` substitutes —
a single plain string, for every field including `test_scenarios`. -/
def fillDefault : PyVal :=
  pyList [pyStr (S ("需要补充具体内容"))]

/-- One step of `_fill_missing_requirements`: a key that is absent or bound
to a falsy value is (re)bound to the generic placeholder list. -/
def fillStep (acc : PyDict) (k : List Char) : PyDict :=
  match lookupD acc k with
  | some v => if pyTruthy v then acc else insertKV acc k fillDefault
  | none => insertKV acc k fillDefault

/-- Model of `_fill_missing_requirements`: `fillStep` over the four required
keys in source order. -/
def fill_missing_requirements (r : PyDict) : PyDict :=
  required4.foldl fillStep r

/-- The finalisation step of `analyze`: fill only when validation fails. -/
def finalizeResult (r : PyDict) : PyDict :=
  if validate_analysis_result r then r else fill_missing_requirements r

/-- The fully-defaulted record returned for empty input and by
`_get_default_result` (two textually identical literals in the source). -/
def default_result : PyDict :=
  [(frK, pyList [pyStr (S ("需要提供具体的功能需求"))]),
   (nfrK, pyList [pyStr (S ("需要提供具体的非功能需求"))]),
   (tsK, pyList [defaultScenario]),
   (raK, pyList [pyStr (S ("需要评估具体的风险领域"))])]

/-- Per-line cleaning shared by all four section extractors: strip, then
remove characters with code point below 32. -/
def stripCtl (line : List Char) : List Char :=
  (pyStrip line).filter fun c => 32 ≤ c.toNat

/-- Heading normalisation of `_extract_functional_reqs`: lowercase, replace
the full-width colon by the ASCII one, remove ASCII spaces. -/
def cleanedLine (l : List Char) : List Char :=
  removeChar (replaceChar (lowerL l) '：' [':']) ' '

/-- Title synonyms that switch the functional-requirements extractor into
its section. -/
def funcTitleMarkers : List (List Char) :=
  [S ("功能需求"), S ("functionalrequirements"), S ("功能列表"), S ("功能点"),
   S ("feature"), S ("functional spec"), S ("功能规格"), S ("核心功能")]

/-- Exit synonyms that terminate the functional-requirements extractor. -/
def funcExitMarkers : List (List Char) :=
  [S ("非功能需求"), S ("non-functional"), S ("非功能性需求"), S ("性能需求"),
   S ("约束条件"), S ("测试场景")]

/-- Opening brackets of the numbered-entry regex. -/
def numOpenBr : List Char :=
  ['(', '（', '[', '【']

/-- Enumeration characters of the numbered-entry regex: an ASCII digit or
letter, or a Chinese numeral. -/
def numAlnumCN (c : Char) : Bool :=
  isAsciiDigit c || isAsciiAlpha c ||
  ['一', '二', '三', '四', '五', '六', '七', '八', '九', '十'].contains c

/-- Separator characters of the numbered-entry regex. -/
def numSeps : List Char :=
  [']', '）', '】', '.', '、']

/-- Leading numbered-entry match of the regex
`^[(（\[【]?[\dA-Za-z一二三四五六七八九十][\]）】\.、]`: optionally an
opening bracket, one enumeration character, one separator.  Returns the rest
of the line when the prefix matches. -/
def numberedSplit (s : List Char) : Option (List Char) :=
  match s with
  | c0 :: c1 :: c2 :: t =>
    if numOpenBr.contains c0 ∧ numAlnumCN c1 ∧ numSeps.contains c2 then some t
    else if numAlnumCN c0 ∧ numSeps.contains c1 then some (c2 :: t)
    else none
  | c0 :: c1 :: t =>
    if numAlnumCN c0 ∧ numSeps.contains c1 then some t else none
  | _ => none

/-- Bullet characters of the functional-requirements extractor. -/
def bulletChars : List Char :=
  ['-', '*', '•', '›', '➢', '▷', '✓', '✔', '⦿', '◉', '◆', '◇', '■', '□', '●', '○']

/-- First special-character class removed by the extractor (brackets, curly
quotes, the emoji block 1F600–1F64F, and section/star/gender signs). -/
def inSpecialA (c : Char) : Bool :=
  ['【', '】', '〖', '〗', '“', '”', '‘', '’', '§', '※', '★', '☆', '♀', '♂'].contains c ||
  (0x1F600 ≤ c.toNat ∧ c.toNat ≤ 0x1F64F)

/-- Second special-character class (brackets, curly quotes, emoji block). -/
def inSpecialB (c : Char) : Bool :=
  ['【', '】', '〖', '〗', '“', '”', '‘', '’'].contains c ||
  (0x1F600 ≤ c.toNat ∧ c.toNat ≤ 0x1F64F)

/-- Third special-character class (brackets and curly quotes only). -/
def inSpecialC (c : Char) : Bool :=
  ['【', '】', '〖', '〗', '“', '”', '‘', '’'].contains c

/-- The business-verb markers of the acceptance heuristic. -/
def businessVerbs : List (List Char) :=
  [S ("应"), S ("需要"), S ("支持"), S ("实现"), S ("提供"), S ("确保"), S ("允许")]

/-- The primary acceptance heuristic for a cleaned functional-requirement
line: non-empty, length strictly between 3 and 100, and containing at least
one business verb. -/
def funcPrimaryAccept (c : List Char) : Bool :=
  (¬ c.isEmpty) && decide (3 < c.length) && decide (c.length < 100) &&
  businessVerbs.any fun v => containsSub v c

/-- Trailing-colon test of the secondary filter (regex `[：:]$`). -/
def endsColon (c : List Char) : Bool :=
  match c.getLast? with
  | some x => x = ':' ∨ x = '：'
  | none => false

/-- The content cleaning of `_extract_functional_reqs` (lines 307–322 of
the source): strip, numbered-prefix removal, bullet removal, and the first
special-character cleaning. -/
def funcClean (line : List Char) : List Char :=
  let c1 := pyStrip line
  let c2 :=
    match numberedSplit c1 with
    | some r => pyStrip r
    | none => c1
  let c3 :=
    match c2 with
    | b :: t => if bulletChars.contains b then pyStrip t else c2
    | [] => c2
  pyStrip (c3.filter fun c => ¬ inSpecialA c)

/-- The per-line branch cascade of `_extract_functional_reqs` (lines
307–348 of the source), applied after `funcClean`: the primary heuristic
keeps the cleaned content; on failure, two further cleanings and the
secondary filter; on failure again, optional dash removal and an
unconditional final entry. -/
def funcEntry (line : List Char) : List Char :=
  let c4 := funcClean line
  if funcPrimaryAccept c4 then c4
  else
    let c5 := pyStrip (c4.filter fun c => ¬ inSpecialB c)
    let c6 := pyStrip (c5.filter fun c => ¬ inSpecialC c)
    if (¬ c6.isEmpty) && decide (3 < c6.length) && (¬ endsColon c6) then c6
    else
      match c6 with
      | '-' :: t => pyStrip t
      | _ => c6

/-- The line loop of `_extract_functional_reqs`: heading lines switch the
section flag, exit markers break out of the loop, and every in-section
content line contributes one entry via `funcEntry`. -/
def extractFuncLoop : List (List Char) → Bool → List (List Char)
  | [], _ => []
  | line0 :: rest, inSec =>
    let line := stripCtl line0
    if line.isEmpty then extractFuncLoop rest inSec
    else
      let cl := cleanedLine line
      if funcTitleMarkers.any (fun m => containsSub m cl) then
        extractFuncLoop rest true
      else if funcExitMarkers.any (fun m => containsSub m cl) then []
      else if inSec then funcEntry line :: extractFuncLoop rest inSec
      else extractFuncLoop rest inSec

/-- The in-section content lines seen by `_extract_functional_reqs`, with
the same control flow as `extractFuncLoop` but without the per-line
cascade. -/
def funcContentLoop : List (List Char) → Bool → List (List Char)
  | [], _ => []
  | line0 :: rest, inSec =>
    let line := stripCtl line0
    if line.isEmpty then funcContentLoop rest inSec
    else
      let cl := cleanedLine line
      if funcTitleMarkers.any (fun m => containsSub m cl) then
        funcContentLoop rest true
      else if funcExitMarkers.any (fun m => containsSub m cl) then []
      else if inSec then line :: funcContentLoop rest inSec
      else funcContentLoop rest inSec

/-- Model of `_extract_functional_reqs`: empty input yields the empty list;
otherwise the line loop runs and, when it collected nothing, the default
placeholder is substituted. -/
def extract_functional_reqs (msg : List Char) : List (List Char) :=
  if msg.isEmpty then []
  else
    let l := extractFuncLoop (splitOnChar '\n' msg) false
    if l.isEmpty then [S ("需要提供具体的功能需求")] else l

/-- Everything after the first occurrence of `sep` (Python's
`line.split(sep, 1)[1]`). -/
def afterFirst (sep : Char) : List Char → List Char
  | [] => []
  | c :: t => if c = sep then t else afterFirst sep t

/-- The numbered-line handling shared by the non-functional, scenario and
risk extractors: try the separators in source order and cut after the first
one present anywhere in the line. -/
def sepSplitContent (line : List Char) : List Char :=
  if containsSub ['.'] line then afterFirst '.' line
  else if containsSub ['、'] line then afterFirst '、' line
  else if containsSub ['）'] line then afterFirst '）' line
  else if containsSub [')'] line then afterFirst ')' line
  else if containsSub [']'] line then afterFirst ']' line
  else line

/-- The per-line content computation shared by the non-functional, scenario
and risk extractors: bullet removal, else numbered-line splitting when one
of the first two characters is a digit. -/
def enumContent (line : List Char) : List Char :=
  match line with
  | c :: t =>
    if c = '-' ∨ c = '*' ∨ c = '•' then pyStrip t
    else if (line.take 2).any isAsciiDigit then sepSplitContent line
    else line
  | [] => []

/-- The keep filter of those extractors: non-empty content whose lowercase
form starts with none of the section's excluded prefixes. -/
def contentKeep (prefixes : List (List Char)) (content : List Char) : Bool :=
  (¬ content.isEmpty) &&
  ¬ prefixes.any fun p => startsWithL (lowerL p) (lowerL content)

/-- Final dash removal before appending. -/
def finalDash (content : List Char) : List Char :=
  match content with
  | '-' :: t => pyStrip t
  | _ => content

/-- Generic line loop of the non-functional / scenario / risk extractors:
`enterM` synonyms (matched against the lowercased line) switch the section
on, `exitF` breaks, in-section lines are cleaned, filtered and appended. -/
def sectionLoop (enterM : List (List Char)) (exitF : List Char → Bool)
    (prefixes : List (List Char)) : List (List Char) → Bool → List (List Char)
  | [], _ => []
  | line0 :: rest, inSec =>
    let line := stripCtl line0
    if line.isEmpty then sectionLoop enterM exitF prefixes rest inSec
    else if enterM.any (fun m => containsSub m (lowerL line)) then
      sectionLoop enterM exitF prefixes rest true
    else if exitF line then []
    else if inSec then
      let content := pyStrip (enumContent line)
      if contentKeep prefixes content then
        finalDash content :: sectionLoop enterM exitF prefixes rest inSec
      else sectionLoop enterM exitF prefixes rest inSec
    else sectionLoop enterM exitF prefixes rest inSec

/-- Enter markers of `_extract_non_functional_reqs`. -/
def nfrEnter : List (List Char) :=
  [S ("2. 非功能需求"), S ("非功能需求:"), S ("非功能需求："), S ("### 2. 非功能需求")]

/-- Exit markers of `_extract_non_functional_reqs` (the scenario headings). -/
def tsHeadings : List (List Char) :=
  [S ("3. 测试场景"), S ("测试场景:"), S ("测试场景："), S ("### 3. 测试场景")]

/-- Excluded prefixes of `_extract_non_functional_reqs`. -/
def nfrPrefixes : List (List Char) :=
  [S ("2."), S ("二、"), S ("非功能需求"), S ("需求"), S ("要求"), S ("**"), S ("#")]

/-- Model of `_extract_non_functional_reqs`. -/
def extract_non_functional_reqs (msg : List Char) : List (List Char) :=
  if msg.isEmpty then []
  else
    sectionLoop nfrEnter (fun l => tsHeadings.any fun m => containsSub m (lowerL l))
      nfrPrefixes (splitOnChar '\n' msg) false

/-- Exit markers of `_extract_test_scenarios` (the risk headings). -/
def raHeadings : List (List Char) :=
  [S ("4. 风险领域"), S ("风险领域:"), S ("风险领域："), S ("### 4. 风险领域")]

/-- Excluded prefixes of `_extract_test_scenarios`. -/
def tsPrefixes : List (List Char) :=
  [S ("3."), S ("三、"), S ("测试场景"), S ("场景"), S ("**"), S ("#")]

/-- Model of `_extract_test_scenarios`: scenario description lines collected
by the section loop are converted to `TestScenario` values with sequential
ids, with a single default scenario when nothing was collected. -/
def extract_test_scenarios (msg : List Char) : List PyVal :=
  if msg.isEmpty then []
  else
    let descs :=
      sectionLoop tsHeadings (fun l => raHeadings.any fun m => containsSub m (lowerL l))
        tsPrefixes (splitOnChar '\n' msg) false
    let ts := descs.mapIdx fun i d => pyScenario (fmtTS (i + 1)) d []
    if ts.isEmpty then [defaultScenario] else ts

/-- Excluded prefixes of `_extract_risk_areas`. -/
def raPrefixes : List (List Char) :=
  [S ("4."), S ("四、"), S ("风险领域"), S ("风险"), S ("**"), S ("#")]

/-- Model of `_extract_risk_areas`: its exit condition is a line starting
with `5.` or one whose whitespace-strip is empty.  The second alternative is
not dead: a cleaned line can be whitespace-only (control characters survive
the Python `strip()` but are removed by the `ord >= 32` filter, leaving
inner whitespace), in which case it is not skipped by the emptiness check
yet exits here. -/
def extract_risk_areas (msg : List Char) : List (List Char) :=
  if msg.isEmpty then []
  else
    sectionLoop raHeadings (fun l => startsWithL (S ("5.")) l || (pyStrip l).isEmpty)
      raPrefixes (splitOnChar '\n' msg) false

/-- The record built by the text-parsing branch of `analyze` (lines 236–241
of the source): the four section extractors, in the source's key order. -/
def text_parse_result (resp : List Char) : PyDict :=
  [(frK, pyList ((extract_functional_reqs resp).map pyStr)),
   (nfrK, pyList ((extract_non_functional_reqs resp).map pyStr)),
   (tsK, pyList (extract_test_scenarios resp)),
   (raK, pyList ((extract_risk_areas resp).map pyStr))]

/-- Capture of the label regex tail `[：:]\s*(.+)` after the colon: skip
whitespace (which, as in `re`, may cross line breaks) and capture greedily
up to the end of the line.  When only whitespace remains, the minimal
backtracking of `\s*` leaves a single whitespace capture when some non-
newline whitespace exists (such captures are later discarded by the length
filter). -/
def capTail (s : List Char) : Option (List Char × List Char) :=
  match s.dropWhile isReWs with
  | c :: t =>
    some ((c :: t).takeWhile (fun x => x ≠ '\n'), (c :: t).dropWhile (fun x => x ≠ '\n'))
  | [] =>
    match (s.filter (fun c => c ≠ '\n')).getLast? with
    | some c => some ([c], [])
    | none => none

/-- Fuelled scan for all non-overlapping matches of
`label[：:]\s*(.+)` in the text, returning the captures in order
(`re.findall` semantics). -/
def findLabelCapturesF : Nat → List Char → List Char → List (List Char)
  | 0, _, _ => []
  | f + 1, label, s =>
    match s with
    | [] => []
    | _ :: t =>
      if label.isPrefixOf s then
        match s.drop label.length with
        | d :: u =>
          if d = ':' ∨ d = '：' then
            match capTail u with
            | some (cap, rest) => cap :: findLabelCapturesF f label rest
            | none => findLabelCapturesF f label t
          else findLabelCapturesF f label t
        | [] => findLabelCapturesF f label t
      else findLabelCapturesF f label t

/-- Wrapper for `findLabelCapturesF` with sufficient fuel. -/
def findLabelCaptures (label s : List Char) : List (List Char) :=
  findLabelCapturesF (s.length + 1) label s

/-- The list-separator characters of `_extract_fallback_from_text`
(narrow and full-width comma and semicolon, and the enumeration comma). -/
def listSeps : List Char :=
  [',', '，', '、', ';', '；']

/-- Token processing of one captured label tail: strip, split on the
separator class, strip each token, keep the ones longer than two
characters. -/
def tokensOf (cap : List Char) : List (List Char) :=
  (((splitOnAny listSeps (pyStrip cap)).map pyStrip).filter fun t => 2 < t.length)

/-- Per-field label extraction of `_extract_fallback_from_text`: the label
synonyms are tried in order and the first one with any match wins, all of
its captures being token-split and filtered. -/
def labelItems (labels : List (List Char)) (s : List Char) : List (List Char) :=
  match labels with
  | [] => []
  | lab :: rest =>
    let caps := findLabelCaptures lab s
    if caps.isEmpty then labelItems rest s
    else (caps.map tokensOf).flatten

/-- Scenario-label extraction of `_extract_fallback_from_text`: like
`labelItems`, but each kept token becomes a plain dict with an id generated
from the token's index in its own capture's raw split (`enumerate` runs over
the unfiltered split and restarts at every capture). -/
def labelScenItems (labels : List (List Char)) (s : List Char) : List PyVal :=
  match labels with
  | [] => []
  | lab :: rest =>
    let caps := findLabelCaptures lab s
    if caps.isEmpty then labelScenItems rest s
    else
      (caps.map fun cap =>
        ((((splitOnAny listSeps (pyStrip cap)).mapIdx
            fun i tok => (i, pyStrip tok)).filter
            fun p => 2 < p.2.length).map
          fun p =>
            pyDict [(S ("id"), pyStr (fmtTS (p.1 + 1))),
                    (S ("description"), pyStr p.2),
                    (S ("test_cases"), pyList [])])).flatten

/-- Label synonyms for the functional-requirements field. -/
def frLabels : List (List Char) :=
  [S ("功能需求"), S ("功能要求"), S ("主要功能"), S ("核心功能")]

/-- Label synonyms for the non-functional-requirements field. -/
def nfrLabels : List (List Char) :=
  [S ("非功能需求"), S ("性能要求"), S ("质量要求"), S ("约束条件")]

/-- Label synonyms for the test-scenario field. -/
def tsLabels : List (List Char) :=
  [S ("测试场景"), S ("测试用例"), S ("测试情况")]

/-- Label synonyms for the risk-area field. -/
def raLabels : List (List Char) :=
  [S ("风险领域"), S ("潜在风险"), S ("风险点"), S ("注意事项")]

/-- Model of `_extract_fallback_from_text`: label extraction per field with
the per-field defaults substituted for anything left empty. -/
def extract_fallback_from_text (resp : List Char) : PyDict :=
  let fr := labelItems frLabels resp
  let nfr := labelItems nfrLabels resp
  let ts := labelScenItems tsLabels resp
  let ra := labelItems raLabels resp
  [(frK, pyList (if fr.isEmpty then [pyStr (S ("需要根据具体需求文档确定功能需求"))]
                 else fr.map pyStr)),
   (nfrK, pyList (if nfr.isEmpty then
                    [pyStr (S ("性能要求")), pyStr (S ("安全要求")), pyStr (S ("可用性要求"))]
                  else nfr.map pyStr)),
   (tsK, pyList (if ts.isEmpty then
                   [pyDict [(S ("id"), pyStr (S ("TS001"))),
                            (S ("description"), pyStr (S ("需要根据具体需求确定测试场景"))),
                            (S ("test_cases"), pyList [])]]
                 else ts)),
   (raK, pyList (if ra.isEmpty then
                   [pyStr (S ("数据安全风险")), pyStr (S ("系统性能风险")), pyStr (S ("用户体验风险"))]
                 else ra.map pyStr))]

/-- Quoted key `"test_scenarios"` of the second fallback pattern. -/
def qTsKey : List Char :=
  S ("\"test_scenarios\"")

/-- Quoted key `"risk_areas"` of the third fallback pattern. -/
def qRaKey : List Char :=
  S ("\"risk_areas\"")

/-- Fuelled `re.findall` of the fallback patterns: every non-overlapping
flat brace span containing the quoted key. -/
def findallBKF : Nat → List Char → List Char → List (List Char)
  | 0, _, _ => []
  | f + 1, qkey, s =>
    match s with
    | [] => []
    | c :: t =>
      if c = '{' then
        let span := t.takeWhile fun x => x ≠ '{' ∧ x ≠ '}'
        match t.dropWhile (fun x => x ≠ '{' ∧ x ≠ '}') with
        | '}' :: u =>
          if containsSub qkey span then
            ('{' :: span ++ ['}']) :: findallBKF f qkey u
          else findallBKF f qkey t
        | _ => findallBKF f qkey t
      else findallBKF f qkey t

/-- Wrapper for `findallBKF` with sufficient fuel. -/
def findallBraceKey (qkey s : List Char) : List (List Char) :=
  findallBKF (s.length + 1) qkey s

/-- The source's forward brace scan from the end of a fallback match
(`for i in range(start, len)`): the count is updated per character and the
scan ends one past the first position where it is zero; if the scan runs
off the end, the default (the start position) stands. -/
def fwdScan : List Char → Int → Nat → Nat → Nat
  | [], _, _, dflt => dflt
  | c :: t, cnt, i, dflt =>
    let cnt2 : Int := if c = '{' then cnt + 1 else if c = '}' then cnt - 1 else cnt
    if cnt2 = 0 then i + 1 else fwdScan t cnt2 (i + 1) dflt

/-- Repair-validate-decode-build tail of one fallback match attempt of
`_extract_json_fallback` (lines 745–760 of the source): conservative repair,
aggressive repair when the format check fails, decode, and build when the
decoded value is a dict.  `none` means fall through to the next match. -/
def repairDecodeBuild (full : List Char) : Option PyDict :=
  let fixed := fix_json_format full
  let fixed2 := if is_valid_json_format fixed then fixed else fix_json_aggressive fixed
  if is_valid_json_format fixed2 then
    match json_loads fixed2 with
    | some (pyDict m2) => some (build_structured_result m2)
    | _ => none
  else none

/-- The span step of one fallback match attempt: locate the first occurrence
of the matched text (`str.find`), keep its start as the opening brace (the
backward scan in the source always stops immediately, since every match
starts with a brace), extend forward with `fwdScan`, then repair, decode and
build via `repairDecodeBuild`. -/
def tryFallbackMatch (s m : List Char) : Option PyDict :=
  match findSub m s with
  | none => none
  | some sp =>
    let strt := sp + m.length
    let endB := fwdScan (s.drop strt) 0 strt strt
    repairDecodeBuild ((s.drop sp).take (endB - sp))

/-- Try the fallback matches in order, returning the first successful
record. -/
def firstFallback : List (List Char) → List Char → Option PyDict
  | [], _ => none
  | m :: rest, s =>
    match tryFallbackMatch s m with
    | some d => some d
    | none => firstFallback rest s

/-- Model of `_extract_json_fallback`: the three key patterns are tried in
order (iterating all matches of each), and when none succeed the text
label extraction runs. -/
def extract_json_fallback (s : List Char) : PyDict :=
  match
    firstFallback
      (findallBraceKey qFrKey s ++ findallBraceKey qTsKey s ++ findallBraceKey qRaKey s) s
  with
  | some d => d
  | none => extract_fallback_from_text s

/-- Decode-and-build step shared by the two validated branches of `analyze`:
a decoded map is built into a record; a decode failure or a non-map decode
falls back to `_extract_json_fallback` on the full response. -/
def parseAttempt (js resp : List Char) : PyDict :=
  match json_loads js with
  | some (pyDict m) => build_structured_result m
  | _ => extract_json_fallback resp

/-- The response-processing core of `analyze` (lines 163–246 of the source):
locate a payload; if found, strip and clean it, run the conservative repair,
check the format, possibly run the aggressive repair, and decode/build with
fallbacks; if no payload was found, run the four section extractors; in all
cases finish with validation and conditional fill. -/
def processResponse (resp : List Char) : PyDict :=
  let sr :=
    match findJsonMatch resp with
    | some g =>
      let js := fix_json_format (stripTicks (pyStrip g))
      if is_valid_json_format js then parseAttempt js resp
      else
        let js2 := fix_json_aggressive js
        if is_valid_json_format js2 then parseAttempt js2 resp
        else extract_json_fallback resp
    | none => text_parse_result resp
  finalizeResult sr

/-- The environment of one `analyze` call: whether the chat collaborator
call returns normally, whether `last_message` returns normally, the response
text it yields (`none` models a falsy response), and whether
`agent_io.save_result` returns normally. -/
structure AgentEnv where
  chatOk : Bool
  lastMsgOk : Bool
  response : Option (List Char)
  saveOk : Bool

/-- Result of one `analyze` call: a returned dict, or an exception
propagated to the caller. -/
inductive Outcome where
  | ret : PyDict → Outcome
  | raised : Outcome

/-- The error-shaped dict returned when the inner handler of `analyze`
catches an exception (its `details` value, `str(e)` in the source, is
modelled by a fixed string). -/
def error_dict : PyDict :=
  [(S ("error"), pyStr (S ("结果生成失败"))), (S ("details"), pyStr (S ("exception")))]

/-- Model of `analyze` as a state transformer on the `last_analysis` slot:
empty input returns the fully-defaulted record (updating the slot); a chat
exception propagates (outer handler re-raises); a `last_message` exception
returns the error dict (inner handler); a falsy response returns the default
via `_get_default_result` (updating the slot); otherwise the response is
processed, and the record is returned and stored unless the save
collaborator raises first, in which case the error dict is returned and the
slot keeps its prior value. -/
def analyze (env : AgentEnv) (doc : List Char) (last : Option PyDict) :
    Outcome × Option PyDict :=
  if (pyStrip doc).isEmpty then (Outcome.ret default_result, some default_result)
  else if ¬ env.chatOk then (Outcome.raised, last)
  else if ¬ env.lastMsgOk then (Outcome.ret error_dict, last)
  else
    match env.response with
    | none => (Outcome.ret default_result, some default_result)
    | some resp =>
      let r := processResponse resp
      if ¬ env.saveOk then (Outcome.ret error_dict, last)
      else (Outcome.ret r, some r)

/-- Key `error` of the error-shaped dict. -/
def errK : List Char :=
  S ("error")

/-- All four required fields present (in any shape). -/
def hasAllFields (r : PyDict) : Bool :=
  required4.all fun k => (lookupD r k).isSome

/-- Head-match lookup. -/
theorem lookupD_cons_eq (k : List Char) (v : PyVal) (t : PyDict) :
    lookupD ((k, v) :: t) k = some v := by
  simp [lookupD]

/-- Head-mismatch lookup. -/
theorem lookupD_cons_ne {k2 k : List Char} (v : PyVal) (t : PyDict)
    (h : k2 ≠ k) : lookupD ((k2, v) :: t) k = lookupD t k := by
  simp [lookupD, h]

/-- Lookup after inserting the same key. -/
theorem lookupD_insertKV_self (r : PyDict) (k : List Char) (v : PyVal) :
    lookupD (insertKV r k v) k = some v := by
  induction r with
  | nil => simp [insertKV, lookupD]
  | cons p t ih =>
    by_cases h : p.1 = k
    · simp [insertKV, lookupD, h]
    · simp [insertKV, lookupD, h, ih]

/-- Lookup after inserting a different key. -/
theorem lookupD_insertKV_ne (r : PyDict) {k k2 : List Char} (v : PyVal)
    (h : k ≠ k2) : lookupD (insertKV r k v) k2 = lookupD r k2 := by
  induction r with
  | nil => simp [insertKV, lookupD, h]
  | cons p t ih =>
    by_cases h2 : p.1 = k
    · simp [insertKV, lookupD, h2, h]
    · simp [insertKV, lookupD, h2, ih]

/-- After `fillStep` on a key, that key is present. -/
theorem fillStep_isSome (acc : PyDict) (k : List Char) :
    (lookupD (fillStep acc k) k).isSome := by
  unfold fillStep
  cases h : lookupD acc k with
  | none => simp [lookupD_insertKV_self]
  | some v =>
    by_cases ht : pyTruthy v
    · simp [ht, h]
    · simp [ht, lookupD_insertKV_self]

/-- `fillStep` on one key leaves lookups of a different key unchanged. -/
theorem fillStep_other (acc : PyDict) {k k2 : List Char} (h : k ≠ k2) :
    lookupD (fillStep acc k) k2 = lookupD acc k2 := by
  unfold fillStep
  cases hl : lookupD acc k with
  | none => simp [lookupD_insertKV_ne _ _ h]
  | some v =>
    by_cases ht : pyTruthy v
    · simp [ht]
    · simp [ht, lookupD_insertKV_ne _ _ h]

/-- The fill pass written out over the four keys. -/
theorem fill_eq (r : PyDict) :
    fill_missing_requirements r =
      fillStep (fillStep (fillStep (fillStep r frK) nfrK) tsK) raK := by
  simp [fill_missing_requirements, required4, List.foldl]

/-- After the fill pass, all four fields are present. -/
theorem fill_hasAllFields (r : PyDict) :
    hasAllFields (fill_missing_requirements r) = true := by
  rw [fill_eq]
  have h1 : frK ≠ nfrK := by decide
  have h2 : frK ≠ tsK := by decide
  have h3 : frK ≠ raK := by decide
  have h4 : nfrK ≠ tsK := by decide
  have h5 : nfrK ≠ raK := by decide
  have h6 : tsK ≠ raK := by decide
  simp only [hasAllFields, required4, List.all_cons, List.all_nil, Bool.and_true,
    Bool.and_eq_true]
  refine ⟨?_, ?_, ?_, ?_⟩
  · rw [fillStep_other _ h3.symm, fillStep_other _ h2.symm,
      fillStep_other _ h1.symm]
    exact fillStep_isSome _ _
  · rw [fillStep_other _ h5.symm, fillStep_other _ h4.symm]
    exact fillStep_isSome _ _
  · rw [fillStep_other _ h6.symm]
    exact fillStep_isSome _ _
  · exact fillStep_isSome _ _

/-- A record passing validation has all four fields present. -/
theorem validate_hasAllFields (r : PyDict)
    (h : validate_analysis_result r = true) : hasAllFields r = true := by
  simp only [validate_analysis_result, List.all_eq_true] at h
  simp only [hasAllFields, List.all_eq_true]
  intro k hk
  have := h k hk
  cases hl : lookupD r k with
  | none => rw [hl] at this; exact absurd this (by simp)
  | some v => simp

/-- The finalisation step always yields a record with all four fields. -/
theorem finalize_hasAllFields (r : PyDict) :
    hasAllFields (finalizeResult r) = true := by
  unfold finalizeResult
  by_cases h : validate_analysis_result r = true
  · simp [h, validate_hasAllFields r h]
  · simp only [Bool.not_eq_true] at h
    simp [h, fill_hasAllFields]

/-- The record built from a decoded map never carries an `error` key. -/
theorem build_no_err (m : PyDict) :
    lookupD (build_structured_result m) errK = none := by
  have h1 : frK ≠ errK := by decide
  have h2 : nfrK ≠ errK := by decide
  have h3 : raK ≠ errK := by decide
  have h4 : tsK ≠ errK := by decide
  unfold build_structured_result
  cases h : lookupD m tsK with
  | none => simp [lookupD, h1, h2, h3, h4]
  | some v => cases v <;> simp [lookupD, h1, h2, h3, h4]

/-- The text-parsing record never carries an `error` key. -/
theorem text_parse_no_err (resp : List Char) :
    lookupD (text_parse_result resp) errK = none := by
  have h1 : frK ≠ errK := by decide
  have h2 : nfrK ≠ errK := by decide
  have h3 : raK ≠ errK := by decide
  have h4 : tsK ≠ errK := by decide
  simp [text_parse_result, lookupD, h1, h2, h3, h4]

/-- The label-extraction record never carries an `error` key. -/
theorem fallback_text_no_err (resp : List Char) :
    lookupD (extract_fallback_from_text resp) errK = none := by
  have h1 : frK ≠ errK := by decide
  have h2 : nfrK ≠ errK := by decide
  have h3 : raK ≠ errK := by decide
  have h4 : tsK ≠ errK := by decide
  simp [extract_fallback_from_text, lookupD, h1, h2, h3, h4]

set_option maxHeartbeats 2000000 in
/-- A successful repair-decode-build yields a record built from a decoded
map. -/
theorem repairDecodeBuild_shape (full : List Char) (d : PyDict)
    (h : repairDecodeBuild full = some d) :
    ∃ m2, d = build_structured_result m2 := by
  simp only [repairDecodeBuild] at h
  set f1 := fix_json_format full with hf1
  set f2 := if is_valid_json_format f1 then f1 else fix_json_aggressive f1 with hf2
  by_cases hv : is_valid_json_format f2 = true
  · rw [if_pos hv] at h
    cases hl : json_loads f2 with
    | none => rw [hl] at h; cases h
    | some v =>
      rw [hl] at h
      cases v with
      | pyDict m2 => exact ⟨m2, by injection h with h2; exact h2.symm⟩
      | pyStr a => cases h
      | pyNum a => cases h
      | pyBool a => cases h
      | pyNone => cases h
      | pyList a => cases h
      | pyScenario a b c => cases h
  · rw [if_neg hv] at h
    cases h

/-- A successful fallback match yields a record built from a decoded map. -/
theorem tryFallbackMatch_shape (s m : List Char) (d : PyDict)
    (h : tryFallbackMatch s m = some d) :
    ∃ m2, d = build_structured_result m2 := by
  unfold tryFallbackMatch at h
  split at h
  · cases h
  · exact repairDecodeBuild_shape _ d h

/-- Every successful result of the fallback-match loop is a built record. -/
theorem firstFallback_shape :
    ∀ (ms : List (List Char)) (s : List Char) (d : PyDict),
      firstFallback ms s = some d → ∃ m2, d = build_structured_result m2 := by
  intro ms
  induction ms with
  | nil => intro s d h; cases h
  | cons m rest ih =>
    intro s d h
    unfold firstFallback at h
    cases hm : tryFallbackMatch s m with
    | some d2 =>
      rw [hm] at h
      injection h with h2
      exact tryFallbackMatch_shape s m d (h2 ▸ hm)
    | none =>
      rw [hm] at h
      exact ih s d h

/-- `_extract_json_fallback` never yields an `error` key. -/
theorem ejf_no_err (s : List Char) :
    lookupD (extract_json_fallback s) errK = none := by
  unfold extract_json_fallback
  cases h : firstFallback
      (findallBraceKey qFrKey s ++ findallBraceKey qTsKey s ++ findallBraceKey qRaKey s) s with
  | some d =>
    obtain ⟨m2, rfl⟩ := firstFallback_shape _ s d h
    exact build_no_err m2
  | none => exact fallback_text_no_err s

/-- The decode-and-build step never yields an `error` key. -/
theorem parseAttempt_no_err (js resp : List Char) :
    lookupD (parseAttempt js resp) errK = none := by
  unfold parseAttempt
  cases h : json_loads js with
  | none => exact ejf_no_err resp
  | some v =>
    cases v <;> first
      | exact ejf_no_err resp
      | (rename_i m; exact build_no_err m)

/-- The fill pass does not touch the `error` key. -/
theorem fill_err_lookup (r : PyDict) :
    lookupD (fill_missing_requirements r) errK = lookupD r errK := by
  rw [fill_eq]
  rw [fillStep_other _ (show raK ≠ errK by decide),
    fillStep_other _ (show tsK ≠ errK by decide),
    fillStep_other _ (show nfrK ≠ errK by decide),
    fillStep_other _ (show frK ≠ errK by decide)]

/-- Finalisation preserves the absence of an `error` key. -/
theorem finalize_no_err (r : PyDict) (h : lookupD r errK = none) :
    lookupD (finalizeResult r) errK = none := by
  unfold finalizeResult
  by_cases hv : validate_analysis_result r = true
  · simp [hv, h]
  · simp only [Bool.not_eq_true] at hv
    simp [hv, fill_err_lookup, h]

/-- The response-processing core never returns an error-shaped record. -/
theorem processResponse_no_err (resp : List Char) :
    lookupD (processResponse resp) errK = none := by
  unfold processResponse
  apply finalize_no_err
  cases h : findJsonMatch resp with
  | none =>
    simp only [h]
    exact text_parse_no_err resp
  | some g =>
    simp only [h]
    by_cases h1 :
        is_valid_json_format (fix_json_format (stripTicks (pyStrip g))) = true
    · simp [h1, parseAttempt_no_err]
    · simp only [Bool.not_eq_true] at h1
      by_cases h2 :
          is_valid_json_format
            (fix_json_aggressive (fix_json_format (stripTicks (pyStrip g)))) = true
      · simp [h1, h2, parseAttempt_no_err]
      · simp only [Bool.not_eq_true] at h2
        simp [h1, h2, ejf_no_err]

/-- The response-processing core always returns all four fields. -/
theorem processResponse_hasAllFields (resp : List Char) :
    hasAllFields (processResponse resp) = true := by
  unfold processResponse
  exact finalize_hasAllFields _

/-- The scenario-field value computed by `_build_structured_result`. -/
def tsVal (m : PyDict) : PyVal :=
  match lookupD m tsK with
  | some (pyList scl) => pyList (buildScenarios scl [])
  | some _ => pyList [defaultScenario]
  | none => pyList [defaultScenario]

/-- The built record written as one four-entry literal. -/
theorem build_eq (m : PyDict) :
    build_structured_result m =
      [(frK, getD m frK (pyList [])), (nfrK, getD m nfrK (pyList [])),
       (raK, getD m raK (pyList [])), (tsK, tsVal m)] := by
  unfold build_structured_result tsVal
  cases h : lookupD m tsK with
  | none => rfl
  | some v => cases v <;> rfl

/-- Field lookup on the built record: `functional_requirements`. -/
theorem build_lookup_fr (m : PyDict) :
    lookupD (build_structured_result m) frK = some (getD m frK (pyList [])) := by
  rw [build_eq]
  exact lookupD_cons_eq _ _ _

/-- Field lookup on the built record: `non_functional_requirements`. -/
theorem build_lookup_nfr (m : PyDict) :
    lookupD (build_structured_result m) nfrK = some (getD m nfrK (pyList [])) := by
  rw [build_eq, lookupD_cons_ne _ _ (show frK ≠ nfrK by decide)]
  exact lookupD_cons_eq _ _ _

/-- Field lookup on the built record: `risk_areas`. -/
theorem build_lookup_ra (m : PyDict) :
    lookupD (build_structured_result m) raK = some (getD m raK (pyList [])) := by
  rw [build_eq, lookupD_cons_ne _ _ (show frK ≠ raK by decide),
    lookupD_cons_ne _ _ (show nfrK ≠ raK by decide)]
  exact lookupD_cons_eq _ _ _

/-- Field lookup on the built record: `test_scenarios`. -/
theorem build_lookup_ts (m : PyDict) :
    lookupD (build_structured_result m) tsK = some (tsVal m) := by
  rw [build_eq, lookupD_cons_ne _ _ (show frK ≠ tsK by decide),
    lookupD_cons_ne _ _ (show nfrK ≠ tsK by decide),
    lookupD_cons_ne _ _ (show raK ≠ tsK by decide)]
  exact lookupD_cons_eq _ _ _

/-- A well-formed scenario entry as the decoder produces it: a dict with
string `id` and `description` and a string-list `test_cases`. -/
def mkScenDict (p : List Char × List Char × List (List Char)) : PyVal :=
  pyDict [(S ("id"), pyStr p.1), (S ("description"), pyStr p.2.1),
          (S ("test_cases"), pyList (p.2.2.map pyStr))]

/-- Converting well-formed scenario dicts copies ids, descriptions and test
cases verbatim, in order. -/
theorem buildScenarios_wf (scl : List (List Char × List Char × List (List Char))) :
    ∀ acc, buildScenarios (scl.map mkScenDict) acc =
      acc ++ scl.map fun p => pyScenario p.1 p.2.1 p.2.2 := by
  induction scl with
  | nil => intro acc; simp [buildScenarios]
  | cons p t ih =>
    intro acc
    obtain ⟨i, d2, tc⟩ := p
    have hid : lookupD [(S ("id"), pyStr i), (S ("description"), pyStr d2),
        (S ("test_cases"), pyList (tc.map pyStr))] (S ("id")) = some (pyStr i) :=
      lookupD_cons_eq _ _ _
    have hdesc : lookupD [(S ("id"), pyStr i), (S ("description"), pyStr d2),
        (S ("test_cases"), pyList (tc.map pyStr))] (S ("description")) =
        some (pyStr d2) := by
      rw [lookupD_cons_ne _ _ (show S ("id") ≠ S ("description") by decide)]
      exact lookupD_cons_eq _ _ _
    have htc : lookupD [(S ("id"), pyStr i), (S ("description"), pyStr d2),
        (S ("test_cases"), pyList (tc.map pyStr))] (S ("test_cases")) =
        some (pyList (tc.map pyStr)) := by
      rw [lookupD_cons_ne _ _ (show S ("id") ≠ S ("test_cases") by decide),
        lookupD_cons_ne _ _ (show S ("description") ≠ S ("test_cases") by decide)]
      exact lookupD_cons_eq _ _ _
    simp only [List.map_cons, mkScenDict, buildScenarios, hid, hdesc, htc, getD,
      asStrVal, asStrList]
    rw [ih]
    simp only [List.map_map]
    rw [show asStrVal ∘ pyStr = id from funext fun x => rfl, List.map_id]
    simp

/-- Validation succeeds on any four-entry literal whose values are lists. -/
theorem validate_quad (a b c d : List PyVal) :
    validate_analysis_result
      [(frK, pyList a), (nfrK, pyList b), (raK, pyList c), (tsK, pyList d)] = true := by
  have h1 : frK ≠ nfrK := by decide
  have h2 : frK ≠ raK := by decide
  have h3 : frK ≠ tsK := by decide
  have h4 : nfrK ≠ raK := by decide
  have h5 : nfrK ≠ tsK := by decide
  have h6 : raK ≠ tsK := by decide
  simp [validate_analysis_result, required4, lookupD, isPyList, h1, h2, h3, h4, h5, h6]

/-- The post-decode stages of the pipeline: record building followed by
finalisation (exactly what `analyze` runs once a payload has decoded to a
map). -/
def processParsed (m : PyDict) : PyDict :=
  finalizeResult (build_structured_result m)

/-- `dropWhile` yields a suffix. -/
theorem dropWhile_sfx (p : Char → Bool) (l : List Char) : l.dropWhile p <:+ l := by
  induction l with
  | nil => simp [List.dropWhile]
  | cons c t ih =>
    by_cases h : p c
    · simp only [List.dropWhile, h]
      exact ih.trans ⟨[c], rfl⟩
    · simp [List.dropWhile, h]

/-- Tails of suffixes are suffixes. -/
theorem sfx_tail {c : Char} {r l : List Char} (h : (c :: r) <:+ l) : r <:+ l :=
  List.IsSuffix.trans ⟨[c], rfl⟩ h

/-- The rest after a dropped-whitespace head pattern is a suffix. -/
theorem sfx_of_dropWhile_cons {p : Char → Bool} {cs r : List Char} {c : Char}
    (h : cs.dropWhile p = c :: r) : r <:+ cs :=
  sfx_tail (h ▸ dropWhile_sfx p cs)

/-- Second components of equal optional pairs agree. -/
theorem opt_pair_snd {α β : Type} {x s : α} {y r : β}
    (h : some (x, y) = some (s, r)) : r = y := by
  injection h with h2
  rw [Prod.mk.injEq] at h2
  exact h2.2.symm


/-- `hex4` only consumes a prefix. -/
theorem hex4_sfx {t2 t3 : List Char} {u : Char} (h : hex4 t2 = some (u, t3)) :
    t3 <:+ t2 := by
  match t2, h with
  | h1 :: h2 :: h3 :: h4 :: t, h => ?_
  simp only [hex4] at h
  split at h
  · rw [opt_pair_snd h]; exact ⟨[h1, h2, h3, h4], rfl⟩
  · cases h

/-- The string-body reader only consumes a prefix. -/
theorem pStrBody_sfx : ∀ (f : Nat) (cs acc s r : List Char),
    pStrBody f cs acc = some (s, r) → r <:+ cs := by
  intro f
  induction f with
  | zero => intro cs acc s r h; cases h
  | succ f ih =>
    intro cs acc s r h
    match cs with
    | [] => cases h
    | c :: t =>
      unfold pStrBody at h
      split at h
      · rw [opt_pair_snd h]; exact ⟨[c], rfl⟩
      · split at h
        · cases t with
          | nil => cases h
          | cons e t2 =>
            dsimp only at h
            split at h
            · split at h
              · rename_i u t3 heq
                exact ((ih t3 _ s r h).trans (hex4_sfx heq)).trans ⟨[c, e], rfl⟩
              · cases h
            · split at h
              · exact (ih t2 _ s r h).trans ⟨[c, e], rfl⟩
              · cases h
        · split at h
          · cases h
          · exact (ih t _ s r h).trans ⟨[c], rfl⟩

/-- `takeDigits1` only consumes a prefix. -/
theorem takeDigits1_sfx {s d r : List Char} (h : takeDigits1 s = some (d, r)) :
    r <:+ s := by
  unfold takeDigits1 at h
  dsimp only at h
  split at h
  · cases h
  · rw [opt_pair_snd h]; exact dropWhile_sfx _ s

/-- `pIntPart` only consumes a prefix. -/
theorem pIntPart_sfx : ∀ {s d r : List Char}, pIntPart s = some (d, r) → r <:+ s := by
  intro s d r h
  unfold pIntPart at h
  split at h
  · rw [opt_pair_snd h]; exact ⟨['0'], rfl⟩
  · split at h
    · split at h
      · rename_i d2 r2 heq
        rw [opt_pair_snd h]; exact takeDigits1_sfx heq
      · cases h
    · cases h
  · cases h

/-- `pNumTok` only consumes a prefix. -/
theorem pNumTok_sfx : ∀ {s tok r : List Char}, pNumTok s = some (tok, r) → r <:+ s := by
  intro s tok r h
  unfold pNumTok at h
  split at h
  · split at h
    · rename_i t d2 r2 heq
      rw [opt_pair_snd h]; exact (pIntPart_sfx heq).trans ⟨['-'], rfl⟩
    · cases h
  · exact pIntPart_sfx h

/-- `pFrac` only consumes a prefix of its string argument. -/
theorem pFrac_sfx : ∀ {tok s tok2 r : List Char}, pFrac tok s = some (tok2, r) → r <:+ s := by
  intro tok s tok2 r h
  unfold pFrac at h
  split at h
  · split at h
    · rename_i t d2 r2 heq
      rw [opt_pair_snd h]; exact (takeDigits1_sfx heq).trans ⟨['.'], rfl⟩
    · cases h
  · rw [opt_pair_snd h]

/-- The rest component of `pExpSign` is a suffix. -/
theorem pExpSign_sfx (t : List Char) : (pExpSign t).2 <:+ t := by
  unfold pExpSign
  split
  · exact ⟨['+'], rfl⟩
  · exact ⟨['-'], rfl⟩
  · exact ⟨[], rfl⟩

/-- `pExp` only consumes a prefix of its string argument. -/
theorem pExp_sfx : ∀ {tok s tok2 r : List Char}, pExp tok s = some (tok2, r) → r <:+ s := by
  intro tok s tok2 r h
  unfold pExp at h
  split at h
  · rename_i c t
    split at h
    · split at h
      · rename_i d2 r2 heq
        rw [opt_pair_snd h]
        exact ((takeDigits1_sfx heq).trans (pExpSign_sfx t)).trans ⟨[c], rfl⟩
      · cases h
    · rw [opt_pair_snd h]
  · rw [opt_pair_snd h]

/-- `pNum` only consumes a prefix. -/
theorem pNum_sfx : ∀ {s tok r : List Char}, pNum s = some (tok, r) → r <:+ s := by
  intro s tok r h
  unfold pNum at h
  split at h
  · rename_i tok1 r1 heq1
    split at h
    · rename_i tok2 r2 heq2
      exact ((pExp_sfx h).trans (pFrac_sfx heq2)).trans (pNumTok_sfx heq1)
    · cases h
  · cases h

/-- A tail of the dropped-whitespace form of a list is a suffix of the
list (`u` is the consumed pattern, passed explicitly). -/
theorem sfx_of_dropWhile_eq (u : List Char) {p : Char → Bool} {cs r : List Char}
    (h : cs.dropWhile p = u ++ r) : r <:+ cs :=
  List.IsSuffix.trans ⟨u, rfl⟩ (h ▸ dropWhile_sfx p cs)

/-- The JSON decoder only consumes a prefix of its input in every mode. -/
theorem jstep_sfx : ∀ (n : Nat) (mode : JMode) (cs : List Char) (v : PyVal)
    (r : List Char), jstep n mode cs = some (v, r) → r <:+ cs := by
  intro n
  induction n with
  | zero => intro mode cs v r h; cases h
  | succ n ih =>
    intro mode cs v r h
    cases mode with
    | mVal =>
      unfold jstep at h
      split at h
      · rename_i r0 heq
        exact (ih _ _ _ _ h).trans (sfx_of_dropWhile_eq ['{'] heq)
      · rename_i r0 heq
        exact (ih _ _ _ _ h).trans (sfx_of_dropWhile_eq ['['] heq)
      · rename_i r0 heq
        split at h
        · rename_i s2 r2 heq2
          rw [opt_pair_snd h]
          exact (pStrBody_sfx _ _ _ _ _ heq2).trans (sfx_of_dropWhile_eq ['"'] heq)
        · cases h
      · rename_i r0 heq
        rw [opt_pair_snd h]
        exact sfx_of_dropWhile_eq ['t', 'r', 'u', 'e'] heq
      · rename_i r0 heq
        rw [opt_pair_snd h]
        exact sfx_of_dropWhile_eq ['f', 'a', 'l', 's', 'e'] heq
      · rename_i r0 heq
        rw [opt_pair_snd h]
        exact sfx_of_dropWhile_eq ['n', 'u', 'l', 'l'] heq
      · rename_i c r0 heq
        split at h
        · split at h
          · rename_i tok r2 heq2
            rw [opt_pair_snd h]
            exact (pNum_sfx heq2).trans (heq ▸ dropWhile_sfx isJWs cs)
          · cases h
        · cases h
      · cases h
    | mObj =>
      unfold jstep at h
      split at h
      · rename_i r0 heq
        rw [opt_pair_snd h]
        exact sfx_of_dropWhile_eq ['}'] heq
      · exact ih _ _ _ _ h
    | mMembers acc =>
      unfold jstep at h
      split at h
      · rename_i r0 heq
        split at h
        · rename_i k r2 heq2
          split at h
          · rename_i r3 heq3
            split at h
            · rename_i v4 r4 heq4
              have s4 : r4 <:+ cs :=
                ((ih _ _ _ _ heq4).trans (sfx_of_dropWhile_eq [':'] heq3)).trans
                  ((pStrBody_sfx _ _ _ _ _ heq2).trans
                    (sfx_of_dropWhile_eq ['"'] heq))
              split at h
              · rename_i r5 heq5
                exact (ih _ _ _ _ h).trans
                  ((sfx_of_dropWhile_eq [','] heq5).trans s4)
              · rename_i r5 heq5
                rw [opt_pair_snd h]
                exact (sfx_of_dropWhile_eq ['}'] heq5).trans s4
              · cases h
            · cases h
          · cases h
        · cases h
      · cases h
    | mArr =>
      unfold jstep at h
      split at h
      · rename_i r0 heq
        rw [opt_pair_snd h]
        exact sfx_of_dropWhile_eq [']'] heq
      · exact ih _ _ _ _ h
    | mElems acc =>
      unfold jstep at h
      split at h
      · rename_i v0 r0 heq0
        split at h
        · rename_i r2 heq2
          exact (ih _ _ _ _ h).trans
            ((sfx_of_dropWhile_eq [','] heq2).trans (ih _ _ _ _ heq0))
        · rename_i r2 heq2
          rw [opt_pair_snd h]
          exact (sfx_of_dropWhile_eq [']'] heq2).trans (ih _ _ _ _ heq0)
        · cases h
      · cases h

/-- A successful member parse ends exactly at a closing brace: the consumed
part of the input finishes with the brace preceding the returned rest. -/
theorem jstep_members_endbrace : ∀ (n : Nat) (acc : List (List Char × PyVal))
    (cs : List Char) (v : PyVal) (r : List Char),
    jstep n (JMode.mMembers acc) cs = some (v, r) →
    ∃ pre, cs = pre ++ '}' :: r := by
  intro n
  induction n with
  | zero => intro acc cs v r h; cases h
  | succ n ih =>
    intro acc cs v r h
    unfold jstep at h
    split at h
    · rename_i r0 heq
      split at h
      · rename_i k r2 heq2
        split at h
        · rename_i r3 heq3
          split at h
          · rename_i v4 r4 heq4
            have s4 : r4 <:+ cs :=
              ((jstep_sfx _ _ _ _ _ heq4).trans
                (sfx_of_dropWhile_eq [':'] heq3)).trans
                ((pStrBody_sfx _ _ _ _ _ heq2).trans
                  (sfx_of_dropWhile_eq ['"'] heq))
            split at h
            · rename_i r5 heq5
              obtain ⟨pre2, hpre2⟩ := ih _ _ _ _ h
              have s5 : r5 <:+ cs :=
                (sfx_of_dropWhile_eq [','] heq5).trans s4
              obtain ⟨pre0, hpre0⟩ := s5
              exact ⟨pre0 ++ pre2, by rw [← hpre0, hpre2, List.append_assoc]⟩
            · rename_i r5 heq5
              rw [opt_pair_snd h]
              obtain ⟨pre0, hpre0⟩ := s4
              refine ⟨pre0 ++ r4.takeWhile isJWs, ?_⟩
              rw [← hpre0, List.append_assoc]
              congr 1
              rw [← heq5]
              exact (List.takeWhile_append_dropWhile _ _).symm
            · cases h
          · cases h
        · cases h
      · cases h
    · cases h

/-- A successful object parse ends exactly at a closing brace. -/
theorem jstep_obj_endbrace (n : Nat) (cs : List Char) (v : PyVal)
    (r : List Char) (h : jstep n JMode.mObj cs = some (v, r)) :
    ∃ pre, cs = pre ++ '}' :: r := by
  cases n with
  | zero => cases h
  | succ n =>
    unfold jstep at h
    split at h
    · rename_i r0 heq
      rw [opt_pair_snd h]
      refine ⟨cs.takeWhile isJWs, ?_⟩
      rw [← heq]
      exact (List.takeWhile_append_dropWhile _ _).symm
    · exact jstep_members_endbrace _ _ _ _ _ h

/-- JSON whitespace is Python-strip whitespace. -/
theorem pyWs_of_jWs {c : Char} (h : isJWs c = true) : isPyWs c = true := by
  simp only [isJWs, Bool.or_eq_true, decide_eq_true_eq] at h
  rcases h with ((h | h) | h) | h <;> simp [isPyWs, h]

/-- Dropping Python whitespace from a JSON-whitespace run followed by a
non-whitespace character lands exactly on that character. -/
theorem dropPyWs_jws_lead : ∀ (w : List Char), (∀ c ∈ w, isJWs c = true) →
    ∀ (x : Char) (xs : List Char), isPyWs x = false →
    (w ++ x :: xs).dropWhile isPyWs = x :: xs := by
  intro w
  induction w with
  | nil =>
    intro _ x xs hx
    simp [List.dropWhile, hx]
  | cons c t ih =>
    intro hw x xs hx
    have hc : isPyWs c = true := pyWs_of_jWs (hw c (by simp))
    simp only [List.cons_append, List.dropWhile, hc]
    exact ih (fun d hd => hw d (by simp [hd])) x xs hx

/-- Dropping from a list ending in a non-matching character keeps that
character last. -/
theorem dropWhile_append_last {p : Char → Bool} {c : Char}
    (hc : p c = false) : ∀ (ys : List Char),
    (ys ++ [c]).dropWhile p = ys.dropWhile p ++ [c] := by
  intro ys
  induction ys with
  | nil => simp [List.dropWhile, hc]
  | cons y t ih =>
    by_cases hy : p y = true
    · simp [List.dropWhile, hy, ih]
    · simp only [Bool.not_eq_true] at hy
      simp [List.dropWhile, hy]

/-- The head of the stripped string is the first non-whitespace character. -/
theorem pyStrip_head {s : List Char} {c : Char} {r : List Char}
    (h : s.dropWhile isPyWs = c :: r) (hc : isPyWs c = false) :
    ∃ r2, pyStrip s = c :: r2 := by
  unfold pyStrip
  rw [h]
  refine ⟨((r.reverse.dropWhile isPyWs).reverse), ?_⟩
  rw [List.reverse_cons, dropWhile_append_last hc, List.reverse_append]
  rfl

/-- An ASCII digit is not strip whitespace. -/
theorem digit_not_pyws {c : Char} (h : isAsciiDigit c = true) :
    isPyWs c = false := by
  simp only [isAsciiDigit, Bool.and_eq_true, decide_eq_true_eq] at h
  obtain ⟨h1, h2⟩ := h
  simp only [isPyWs, Bool.or_eq_false_iff, decide_eq_false_iff_not]
  refine ⟨⟨⟨⟨⟨?_, ?_⟩, ?_⟩, ?_⟩, ?_⟩, ?_⟩ <;>
    (intro hc; subst hc)
  · exact absurd h1 (by decide)
  · exact absurd h1 (by decide)
  · exact absurd h1 (by decide)
  · exact absurd h1 (by decide)
  · exact absurd h1 (by decide)
  · exact absurd h1 (by decide)

/-- An ASCII digit is not an opening brace. -/
theorem digit_ne_brace {c : Char} (h : isAsciiDigit c = true) : c ≠ '{' := by
  simp only [isAsciiDigit, Bool.and_eq_true, decide_eq_true_eq] at h
  intro hc
  subst hc
  exact absurd h.2 (by decide)

/-- `endsWith` holds for an appended final character. -/
theorem endsWith_append_last (l : List Char) (c : Char) :
    endsWithL [c] (l ++ [c]) = true := by
  simp [endsWithL, List.isSuffixOf, List.reverse_append, List.isPrefixOf]

/-- A successfully decoded input whose stripped form opens with a brace also
closes with one: `json_loads` dispatches such an input to the object mode,
whose last consumed character is always a closing brace, and only whitespace
may follow. -/
theorem loads_obj_ends (s : List Char) (v : PyVal) (hv : json_loads s = some v)
    (hs : startsWithL ['{'] (pyStrip s) = true) :
    endsWithL ['}'] (pyStrip s) = true := by
  unfold json_loads at hv
  split at hv
  · rename_i v0 rest heqJ
    split at hv
    · rename_i hall
      rw [show 3 * s.length + 9 = (3 * s.length + 8) + 1 from rfl] at heqJ
      unfold jstep at heqJ
      have contra : ∀ (c : Char) (r0 : List Char), s.dropWhile isJWs = c :: r0 →
          isPyWs c = false → c ≠ '{' → False := by
        intro c r0 heq hcp hcne
        have hd : s.dropWhile isPyWs = c :: r0 := by
          conv =>
            lhs
            rw [show s = s.takeWhile isJWs ++ c :: r0 by
              rw [← heq]; exact (List.takeWhile_append_dropWhile _ _).symm]
          exact dropPyWs_jws_lead _
            (fun d hd2 => List.mem_takeWhile_imp hd2) c r0 hcp
        obtain ⟨r2, hstrip⟩ := pyStrip_head hd hcp
        rw [hstrip] at hs
        simp only [startsWithL, List.isPrefixOf, Bool.and_eq_true, beq_iff_eq] at hs
        exact hcne hs.1.symm
      split at heqJ
      · rename_i r0 heq
        obtain ⟨pre, hpre⟩ := jstep_obj_endbrace _ _ _ _ heqJ
        have hd : s.dropWhile isPyWs = '{' :: r0 := by
          conv =>
            lhs
            rw [show s = s.takeWhile isJWs ++ '{' :: r0 by
              rw [← heq]; exact (List.takeWhile_append_dropWhile _ _).symm]
          exact dropPyWs_jws_lead _
            (fun d hd2 => List.mem_takeWhile_imp hd2) '{' r0 (by decide)
        have hstrip : pyStrip s = '{' :: pre ++ ['}'] := by
          unfold pyStrip
          rw [hd, hpre]
          have hrev : ('{' :: (pre ++ '}' :: rest)).reverse =
              rest.reverse ++ '}' :: (pre.reverse ++ ['{']) := by
            simp [List.reverse_cons, List.reverse_append, List.append_assoc]
          rw [hrev]
          have hrest : ∀ d ∈ rest.reverse, isJWs d = true := by
            intro d hd2
            rw [List.mem_reverse] at hd2
            exact (List.all_eq_true.mp hall) d hd2
          rw [dropPyWs_jws_lead _ hrest '}' _ (by decide)]
          simp [List.reverse_cons, List.reverse_append]
        rw [hstrip]
        exact endsWith_append_last _ _
      · rename_i r0 heq
        exact (contra _ _ heq (by decide) (by decide)).elim
      · rename_i r0 heq
        exact (contra _ _ heq (by decide) (by decide)).elim
      · rename_i r0 heq
        exact (contra _ _ heq (by decide) (by decide)).elim
      · rename_i r0 heq
        exact (contra _ _ heq (by decide) (by decide)).elim
      · rename_i r0 heq
        exact (contra _ _ heq (by decide) (by decide)).elim
      · rename_i c r0 heq
        split at heqJ
        · rename_i hcd
          rcases hcd with hcd | hcd
          · subst hcd
            exact (contra _ _ heq (by decide) (by decide)).elim
          · exact (contra _ _ heq (digit_not_pyws hcd) (digit_ne_brace hcd)).elim
        · cases heqJ
      · cases heqJ
    · cases hv
  · cases hv

/-- Replacing a character that does not occur leaves the string unchanged. -/
theorem replaceChar_not_mem {s : List Char} {c : Char} {rep : List Char}
    (h : c ∉ s) : replaceChar s c rep = s := by
  induction s with
  | nil => rfl
  | cons a t ih =>
    have ha : a ≠ c := fun hc => h (by simp [hc])
    simp [replaceChar, ha, ih (fun hc => h (by simp [hc]))]

/-- On a decodable payload free of raw newline, carriage-return and tab
characters, the conservative repair pass is the identity: the quote
substitution is the identity everywhere, the character escapes find nothing
to replace, and the truncation branch cannot fire because a decodable
brace-opened payload also closes with a brace. -/
theorem fix_format_id (s : List Char) (v : PyVal)
    (h1 : '\n' ∉ s) (h2 : '\r' ∉ s) (h3 : '\t' ∉ s)
    (hv : json_loads s = some v) : fix_json_format s = s := by
  simp only [fix_json_format, fixQuoteSub]
  rw [replaceChar_not_mem h1, replaceChar_not_mem h2, replaceChar_not_mem h3]
  rw [if_neg]
  intro hcond
  exact hcond.2 (loads_obj_ends s v hv hcond.1)

/-- The `TS` + three-digits pattern (regex `TS\d{3}` as a full match). -/
def isTSPat : List Char → Bool
  | ['T', 'S', a, b, c] => isAsciiDigit a && isAsciiDigit b && isAsciiDigit c
  | _ => false

/-- Scenario ids of a list of scenario values. -/
def scenIds (l : List PyVal) : List (List Char) :=
  l.map fun v =>
    match v with
    | pyScenario i _ _ => i
    | _ => []

/-- Digit characters decode back to their value. -/
theorem digitChar_val {n : Nat} (h : n < 10) : (digitChar n).toNat - 48 = n := by
  interval_cases n <;> decide

/-- Digit characters are digits. -/
theorem digitChar_digit {n : Nat} (h : n < 10) :
    isAsciiDigit (digitChar n) = true := by
  interval_cases n <;> decide

/-- `fromDec` over an appended digit. -/
theorem fromDec_append_digit (xs : List Char) (c : Char) :
    fromDec (xs ++ [c]) = fromDec xs * 10 + (c.toNat - 48) := by
  simp [fromDec, List.foldl_append]

/-- With enough fuel, the decimal representation is correct. -/
theorem toDecF_correct : ∀ (f n : Nat), n < 10 ^ f →
    fromDec (toDecF f n) = n := by
  intro f
  induction f with
  | zero =>
    intro n h
    have : n = 0 := by simpa using h
    subst this
    decide
  | succ f ih =>
    intro n h
    unfold toDecF
    by_cases h10 : n < 10
    · rw [if_pos h10]
      have : fromDec [digitChar n] = (digitChar n).toNat - 48 := by
        simp [fromDec, List.foldl]
      rw [this, digitChar_val h10]
    · rw [if_neg h10]
      have hdiv : n / 10 < 10 ^ f := by
        rw [Nat.div_lt_iff_lt_mul (by omega : (0 : Nat) < 10)]
        calc n < 10 ^ (f + 1) := h
          _ = 10 ^ f * 10 := pow_succ 10 f
      rw [fromDec_append_digit, ih (n / 10) hdiv,
        digitChar_val (Nat.mod_lt _ (by omega))]
      omega

/-- `fromDec` inverts `toDec`. -/
theorem fromDec_toDec (n : Nat) : fromDec (toDec n) = n := by
  unfold toDec
  apply toDecF_correct
  calc n < 10 ^ n := Nat.lt_pow_self (by omega) n
    _ ≤ 10 ^ (n + 1) := Nat.pow_le_pow_right (by omega) (by omega)

/-- Leading zeros do not change the decoded value. -/
theorem fromDec_zeros (k : Nat) (xs : List Char) :
    fromDec (List.replicate k '0' ++ xs) = fromDec xs := by
  induction k with
  | zero => simp
  | succ k ih =>
    simp only [List.replicate_succ, List.cons_append, fromDec, List.foldl_cons]
    have : (0 : Nat) * 10 + (('0').toNat - 48) = 0 := by decide
    rw [this]
    exact ih

/-- The `TS`-id format is injective. -/
theorem fmtTS_inj : Function.Injective fmtTS := by
  intro a b h
  unfold fmtTS at h
  injection h with _ h
  injection h with _ h
  have ha := congrArg fromDec h
  rw [fromDec_zeros, fromDec_zeros, fromDec_toDec, fromDec_toDec] at ha
  exact ha

/-- Length and digit-ness of the fuelled decimal representation. -/
theorem toDecF_bound : ∀ (f k n : Nat), 0 < k → k ≤ f → n < 10 ^ k →
    (toDecF f n).length ≤ k ∧ ∀ c ∈ toDecF f n, isAsciiDigit c = true := by
  intro f
  induction f with
  | zero => intro k n hk hkf _; omega
  | succ f ih =>
    intro k n hk hkf hn
    unfold toDecF
    by_cases h10 : n < 10
    · rw [if_pos h10]
      refine ⟨by simp; omega, ?_⟩
      intro c hc
      simp only [List.mem_singleton] at hc
      subst hc
      exact digitChar_digit h10
    · rw [if_neg h10]
      have hk2 : 2 ≤ k := by
        by_contra hcon
        have hk1 : k = 1 := by omega
        subst hk1
        simp [pow_one] at hn
        omega
      have hdiv : n / 10 < 10 ^ (k - 1) := by
        rw [Nat.div_lt_iff_lt_mul (by omega : (0 : Nat) < 10)]
        have hke : k - 1 + 1 = k := by omega
        calc n < 10 ^ k := hn
          _ = 10 ^ (k - 1) * 10 := by rw [← pow_succ, hke]
      have hrec := ih (k - 1) (n / 10) (by omega) (by omega) hdiv
      constructor
      · simp only [List.length_append, List.length_singleton]
        have := hrec.1
        omega
      · intro c hc
        simp only [List.mem_append, List.mem_singleton] at hc
        rcases hc with hc | hc
        · exact hrec.2 c hc
        · subst hc
          exact digitChar_digit (Nat.mod_lt _ (by omega))

/-- For ids up to 999 the formatted id matches the `TS` pattern. -/
theorem fmtTS_pattern {n : Nat} (h1 : 1 ≤ n) (h2 : n ≤ 999) :
    isTSPat (fmtTS n) = true := by
  have hb : (toDec n).length ≤ 3 ∧ ∀ c ∈ toDec n, isAsciiDigit c = true := by
    unfold toDec
    by_cases hn3 : 3 ≤ n + 1
    · exact toDecF_bound (n + 1) 3 n (by omega) hn3 (by norm_num; omega)
    · have : n = 1 := by omega
      subst this
      exact ⟨by decide, by decide⟩
  obtain ⟨hlen, hdig⟩ := hb
  unfold fmtTS
  set tl := List.replicate (3 - (toDec n).length) '0' ++ toDec n with htl
  have htlen : tl.length = 3 := by
    simp only [htl, List.length_append, List.length_replicate]
    omega
  have htldig : ∀ c ∈ tl, isAsciiDigit c = true := by
    intro c hc
    simp only [htl, List.mem_append] at hc
    rcases hc with hc | hc
    · rw [List.eq_of_mem_replicate hc]; decide
    · exact hdig c hc
  match tl, htlen, htldig with
  | [a, b, c], _, htldig =>
    simp only [isTSPat]
    rw [htldig a (by simp), htldig b (by simp), htldig c (by simp)]
    rfl

/-- The ids of the extracted scenarios are exactly the sequentially
formatted positions. -/
theorem scenIds_extract (msg : List Char) :
    scenIds (extract_test_scenarios msg) =
      (List.range (extract_test_scenarios msg).length).map fun i => fmtTS (i + 1) := by
  unfold extract_test_scenarios
  by_cases hE : msg.isEmpty = true
  · simp [hE, scenIds]
  · simp only [hE, if_false, Bool.false_eq_true]
    set descs :=
      sectionLoop tsHeadings (fun l => raHeadings.any fun m => containsSub m (lowerL l))
        tsPrefixes (splitOnChar '\n' msg) false with hdescs
    by_cases hts : (descs.mapIdx fun i d => pyScenario (fmtTS (i + 1)) d []).isEmpty = true
    · simp only [hts, if_true]
      have h1 : scenIds [defaultScenario] = [fmtTS 1] := by decide
      rw [h1]
      rfl
    · simp only [hts, if_false, Bool.false_eq_true]
      rw [List.mapIdx_eq_enum_map]
      unfold scenIds
      rw [List.map_map, List.length_map, List.enum_length]
      calc descs.enum.map ((fun v => match v with
              | pyScenario i _ _ => i
              | _ => ([] : List Char)) ∘
            Function.uncurry fun i d => pyScenario (fmtTS (i + 1)) d [])
          = descs.enum.map ((fun i => fmtTS (i + 1)) ∘ Prod.fst) := by
            apply List.map_congr_left
            intro p _
            rfl
        _ = (descs.enum.map Prod.fst).map fun i => fmtTS (i + 1) := by
            rw [List.map_map]
        _ = (List.range descs.length).map fun i => fmtTS (i + 1) := by
            rw [List.enum_map_fst]

/-- The functional-requirements line loop appends exactly one `funcEntry`
per in-section content line: it is the mapped form of the content loop. -/
theorem extractFuncLoop_map : ∀ (ls : List (List Char)) (b : Bool),
    extractFuncLoop ls b = (funcContentLoop ls b).map funcEntry := by
  intro ls
  induction ls with
  | nil => intro b; rfl
  | cons l rest ih =>
    intro b
    simp only [extractFuncLoop, funcContentLoop]
    by_cases h1 : (stripCtl l).isEmpty = true
    · simp only [h1, if_true]
      exact ih b
    · simp only [h1, if_false, Bool.false_eq_true]
      by_cases h2 : (funcTitleMarkers.any fun m =>
          containsSub m (cleanedLine (stripCtl l))) = true
      · simp only [h2, if_true]
        exact ih true
      · simp only [h2, if_false, Bool.false_eq_true]
        by_cases h3 : (funcExitMarkers.any fun m =>
            containsSub m (cleanedLine (stripCtl l))) = true
        · simp only [h3, if_true]
          rfl
        · simp only [h3, if_false, Bool.false_eq_true]
          by_cases h4 : b = true
          · subst h4
            simp only [if_true, List.map_cons]
            rw [ih true]
          · have : b = false := by
              cases b
              · rfl
              · exact absurd rfl h4
            subst this
            simp only [Bool.false_eq_true, if_false]
            exact ih false

/-- On the no-payload path, `analyze`'s core is the finalised text-parse
record. -/
theorem processResponse_nomatch {resp : List Char}
    (h : findJsonMatch resp = none) :
    processResponse resp = finalizeResult (text_parse_result resp) := by
  unfold processResponse
  rw [h]

/-- Claim C1 (amended): every record returned by the response-processing
core of `analyze` has all four top-level fields present.  (The finalisation
step checks only presence and list shape, so a present-but-empty list
passes validation and can be returned — see the counterexample.) -/
theorem C1_fields_present (resp : List Char) :
    hasAllFields (processResponse resp) = true :=
  processResponse_hasAllFields resp

/-- Claim C1 counterexample: on the response `hello` the returned record
carries an empty `non_functional_requirements` list, refuting the claim
that no returned record contains an empty list. -/
theorem C1_counter :
    lookupD (processResponse (S ("hello"))) nfrK = some (pyList []) := by
  rfl

/-- Response whose decoded `functional_requirements` value is a plain
string (field-shape mismatch). -/
def respC2 : List Char :=
  S ("\x7b\"functional_requirements\": \"abc\", \"non_functional_requirements\": [\"a\"], \"test_scenarios\": [\x7b\"id\": \"TS001\", \"description\": \"d\", \"test_cases\": []\x7d], \"risk_areas\": [\"r\"]\x7d")

/-- Claim C2 (amended): when the collaborator calls return normally,
`analyze` returns (never raises) a record that is stored, carries no
`error` key, and has all four fields present.  (A field-shape mismatch is
not fully absorbed, however: the mismatched value is returned verbatim —
see the counterexample.) -/
theorem C2_no_error_sentinel (env : AgentEnv) (doc : List Char)
    (last : Option PyDict) (h1 : env.chatOk = true) (h2 : env.lastMsgOk = true)
    (h3 : env.saveOk = true) :
    ∃ r, analyze env doc last = (Outcome.ret r, some r) ∧
      lookupD r errK = none ∧ hasAllFields r = true := by
  unfold analyze
  by_cases hd : (pyStrip doc).isEmpty = true
  · rw [if_pos hd]
    exact ⟨default_result, rfl, rfl, rfl⟩
  · rw [if_neg hd, if_neg (fun hx => hx h1), if_neg (fun hx => hx h2)]
    cases hr : env.response with
    | none => exact ⟨default_result, rfl, rfl, rfl⟩
    | some resp =>
      dsimp only
      rw [if_neg (fun hx => hx h3)]
      exact ⟨processResponse resp, rfl, processResponse_no_err resp,
        processResponse_hasAllFields resp⟩

/-- Claim C2 witness: a concrete run with all collaborators succeeding. -/
theorem C2_witness :
    lookupD (processResponse (S ("hi"))) errK = none ∧
    hasAllFields (processResponse (S ("hi"))) = true := by
  obtain ⟨r, ha, hb, hc⟩ :=
    C2_no_error_sentinel ⟨true, true, some (S ("hi")), true⟩ (S ("d")) none
      rfl rfl rfl
  have heq : analyze ⟨true, true, some (S ("hi")), true⟩ (S ("d")) none =
      (Outcome.ret (processResponse (S ("hi"))),
        some (processResponse (S ("hi")))) := rfl
  rw [heq] at ha
  injection ha with ha1 ha2
  injection ha1 with ha1
  rw [← ha1] at hb hc
  exact ⟨hb, hc⟩

set_option maxHeartbeats 4000000 in
/-- Claim C2 counterexample: on `respC2` the returned record's
`functional_requirements` field is the plain string `abc` — not a list —
so the call does not return a valid, fully-defaulted record. -/
theorem C2_counter :
    lookupD (processResponse respC2) frK = some (pyStr (S ("abc"))) ∧
    isPyList (pyStr (S ("abc"))) = false := by
  exact ⟨rfl, rfl⟩

/-- Response whose decoded map leaves `test_scenarios` empty after
conversion while validation fails on the string-shaped first field. -/
def respC3 : List Char :=
  S ("\x7b\"functional_requirements\": \"abc\", \"test_scenarios\": [1]\x7d")

set_option maxHeartbeats 4000000 in
/-- Claim C3 evaluation at the failing input: the fill step replaces the
empty `test_scenarios` field with the generic placeholder — a singleton
list containing a plain string, not a `TestScenario` with id `TS001`. -/
theorem C3_fill_plain_string :
    lookupD (processResponse respC3) tsK =
      some (pyList [pyStr (S ("需要补充具体内容"))]) := by
  rfl

/-- Response whose payload carries a scenario id that does not match the
`TS` pattern. -/
def respC4 : List Char :=
  S ("\x7b\"functional_requirements\": [\"f\"], \"non_functional_requirements\": [\"n\"], \"test_scenarios\": [\x7b\"id\": \"FOO\", \"description\": \"d\", \"test_cases\": []\x7d], \"risk_areas\": [\"r\"]\x7d")

/-- Claim C4 (amended): scenarios synthesised by the test-scenario section
extractor — and only those — get ids that are exactly the sequentially
formatted positions starting at `TS001`, pairwise distinct, and matching
the `TS` three-digit pattern as long as at most 999 scenarios are produced.
(Ids parsed from a payload are copied verbatim, and the label-capture
fallback numbers each captured line independently over its unfiltered
token split, so it can emit duplicate `TS001` ids in one returned record —
see the counterexample.) -/
theorem C4_synthesized_ids (msg : List Char) :
    scenIds (extract_test_scenarios msg) =
      (List.range (extract_test_scenarios msg).length).map (fun i => fmtTS (i + 1)) ∧
    (scenIds (extract_test_scenarios msg)).Nodup ∧
    ((extract_test_scenarios msg).length ≤ 999 →
      ∀ idc ∈ scenIds (extract_test_scenarios msg), isTSPat idc = true) := by
  refine ⟨scenIds_extract msg, ?_, ?_⟩
  · rw [scenIds_extract msg]
    apply List.Nodup.map
    · intro a b hab
      have := fmtTS_inj hab
      omega
    · exact List.nodup_range _
  · intro hlen idc hidc
    rw [scenIds_extract msg] at hidc
    simp only [List.mem_map, List.mem_range] at hidc
    obtain ⟨i, hi, hrfl⟩ := hidc
    rw [← hrfl]
    exact fmtTS_pattern (by omega) (by omega)

/-- Prose input with a scenario heading and two bullet scenario lines. -/
def msgC4 : List Char :=
  S ("测试场景:\n- 甲流程测试\n- 乙流程测试")

/-- Claim C4 witness: on `msgC4` two scenarios are synthesised, with ids
`TS001` and `TS002`, both matching the pattern. -/
theorem C4_witness :
    scenIds (extract_test_scenarios msgC4) = [fmtTS 1, fmtTS 2] ∧
    isTSPat (fmtTS 1) = true := by
  have h := C4_synthesized_ids msgC4
  have hl : (extract_test_scenarios msgC4).length = 2 := by rfl
  constructor
  · rw [h.1, hl]
    rfl
  · refine h.2.2 (by rw [hl]; omega) (fmtTS 1) ?_
    rw [h.1, hl]
    simp only [List.mem_map, List.mem_range]
    exact ⟨0, by omega, rfl⟩

/-- Response whose located payload stays undecodable after repair and whose
text carries two scenario label lines: the label-capture fallback numbers
each capture from 1. -/
def respC4b : List Char :=
  S ("\x7b\"a\": 1\n\x7d\n测试场景: 甲流程测试\n测试场景: 乙流程测试")

set_option maxHeartbeats 8000000 in
/-- Claim C4 counterexample: a payload-supplied id is copied verbatim into
the returned record even though it does not match the `TS` pattern, and the
label-capture fallback emits two scenarios with the duplicate id `TS001`
in one returned record. -/
theorem C4_counter :
    (lookupD (processResponse respC4) tsK =
      some (pyList [pyScenario (S ("FOO")) (S ("d")) []]) ∧
    isTSPat (S ("FOO")) = false) ∧
    lookupD (processResponse respC4b) tsK =
      some (pyList
        [pyDict [(S ("id"), pyStr (S ("TS001"))),
                 (S ("description"), pyStr (S ("甲流程测试"))),
                 (S ("test_cases"), pyList [])],
         pyDict [(S ("id"), pyStr (S ("TS001"))),
                 (S ("description"), pyStr (S ("乙流程测试"))),
                 (S ("test_cases"), pyList [])]]) := by
  exact ⟨⟨rfl, rfl⟩, rfl⟩

/-- Claim C5 (amended): on a payload that decodes successfully and carries
no raw newline, carriage-return or tab character, the conservative repair
pass returns the payload unchanged, so it still decodes to the same value.
(With such characters present the pass corrupts even a valid payload, and
the aggressive pass, when it runs, can alter decodable text — see the
counterexample.) -/
theorem C5_conservative_id (s : List Char) (v : PyVal)
    (h1 : '\n' ∉ s) (h2 : '\r' ∉ s) (h3 : '\t' ∉ s)
    (hv : json_loads s = some v) :
    fix_json_format s = s ∧ json_loads (fix_json_format s) = some v := by
  have hid := fix_format_id s v h1 h2 h3 hv
  exact ⟨hid, by rw [hid]; exact hv⟩

/-- Claim C5 witness: a concrete newline-free payload is repaired to
itself. -/
theorem C5_witness :
    fix_json_format (S ("\x7b\"a\": [\"b\"]\x7d")) = S ("\x7b\"a\": [\"b\"]\x7d") ∧
    json_loads (fix_json_format (S ("\x7b\"a\": [\"b\"]\x7d"))) =
      some (pyDict [(S ("a"), pyList [pyStr (S ("b"))])]) := by
  have h := C5_conservative_id (S ("\x7b\"a\": [\"b\"]\x7d"))
    (pyDict [(S ("a"), pyList [pyStr (S ("b"))])])
    (by decide) (by decide) (by decide) (by rfl)
  exact ⟨h.1, h.2⟩

/-- A decodable payload containing a raw newline between tokens. -/
def pldC5 : List Char :=
  S ("\x7b\"functional_requirements\": [\"a\"],\n\"risk_areas\": [\"b\"]\x7d")

/-- Claim C5 counterexample: the payload decodes, yet its conservative
repair no longer decodes (the newline was escaped into backslash-n);
the repaired text still passes the format check, so the aggressive pass is
not even invoked on this pipeline path. -/
theorem C5_counter :
    (json_loads pldC5).isSome = true ∧
    json_loads (fix_json_format pldC5) = none ∧
    is_valid_json_format (fix_json_format pldC5) = true := by
  exact ⟨rfl, rfl, rfl⟩

/-- Claim C6 (amended): the post-decode stages preserve content exactly —
a decoded map carrying all four fields as lists, with well-formed scenario
dicts, is built and finalised into the record with the same lists, in
order, and no placeholder substituted.  (The end-to-end property fails for
payloads carrying raw newlines, which the conservative repair corrupts
before decoding — see the counterexample.) -/
theorem C6_roundtrip (m : PyDict) (frs nfrs ras : List PyVal)
    (scl : List (List Char × List Char × List (List Char)))
    (hfr : lookupD m frK = some (pyList frs))
    (hnfr : lookupD m nfrK = some (pyList nfrs))
    (hra : lookupD m raK = some (pyList ras))
    (hts : lookupD m tsK = some (pyList (scl.map mkScenDict))) :
    processParsed m =
      [(frK, pyList frs), (nfrK, pyList nfrs), (raK, pyList ras),
       (tsK, pyList (scl.map fun p => pyScenario p.1 p.2.1 p.2.2))] := by
  have h1 : getD m frK (pyList []) = pyList frs := by unfold getD; rw [hfr]
  have h2 : getD m nfrK (pyList []) = pyList nfrs := by unfold getD; rw [hnfr]
  have h3 : getD m raK (pyList []) = pyList ras := by unfold getD; rw [hra]
  have h4 : tsVal m = pyList (scl.map fun p => pyScenario p.1 p.2.1 p.2.2) := by
    unfold tsVal
    rw [hts]
    dsimp only
    rw [buildScenarios_wf scl []]
    rfl
  have hb : build_structured_result m =
      [(frK, pyList frs), (nfrK, pyList nfrs), (raK, pyList ras),
       (tsK, pyList (scl.map fun p => pyScenario p.1 p.2.1 p.2.2))] := by
    rw [build_eq, h1, h2, h3, h4]
  unfold processParsed finalizeResult
  rw [hb, if_pos (validate_quad _ _ _ _)]

/-- A decoded map with all four fields well-formed. -/
def mC6 : PyDict :=
  [(frK, pyList [pyStr (S ("甲"))]), (nfrK, pyList [pyStr (S ("乙"))]),
   (raK, pyList [pyStr (S ("丙"))]),
   (tsK, pyList [mkScenDict (S ("TS001"), S ("丁"), [S ("戊")])])]

/-- Claim C6 witness: a concrete well-formed map round-trips exactly. -/
theorem C6_witness :
    processParsed mC6 =
      [(frK, pyList [pyStr (S ("甲"))]), (nfrK, pyList [pyStr (S ("乙"))]),
       (raK, pyList [pyStr (S ("丙"))]),
       (tsK, pyList [pyScenario (S ("TS001")) (S ("丁")) [S ("戊")]])] :=
  C6_roundtrip mC6 [pyStr (S ("甲"))] [pyStr (S ("乙"))] [pyStr (S ("丙"))]
    [(S ("TS001"), S ("丁"), [S ("戊")])] rfl rfl rfl rfl

/-- A fully well-formed four-field payload containing one raw newline
between tokens. -/
def respC6 : List Char :=
  S ("\x7b\"functional_requirements\": [\"a\"],\n\"non_functional_requirements\": [\"b\"], \"test_scenarios\": [\x7b\"id\": \"TS001\", \"description\": \"d\", \"test_cases\": []\x7d], \"risk_areas\": [\"c\"]\x7d")

set_option maxHeartbeats 8000000 in
/-- Claim C6 counterexample: the payload decodes on its own to a map with
all four fields populated, yet the pipeline returns the label-extraction
placeholder for `functional_requirements` — the content is not preserved. -/
theorem C6_counter :
    json_loads respC6 =
      some (pyDict
        [(S ("functional_requirements"), pyList [pyStr (S ("a"))]),
         (S ("non_functional_requirements"), pyList [pyStr (S ("b"))]),
         (S ("test_scenarios"), pyList
           [pyDict [(S ("id"), pyStr (S ("TS001"))),
                    (S ("description"), pyStr (S ("d"))),
                    (S ("test_cases"), pyList [])]]),
         (S ("risk_areas"), pyList [pyStr (S ("c"))])]) ∧
    lookupD (processResponse respC6) frK =
      some (pyList [pyStr (S ("需要根据具体需求文档确定功能需求"))]) := by
  exact ⟨rfl, rfl⟩

/-- A response carrying a label line and no structured payload. -/
def respC7 : List Char :=
  S ("非功能需求: 高性能要求")

/-- Claim C7 (amended): on the no-payload path the core runs only the four
section extractors followed by finalisation; the label extractor
(`_extract_fallback_from_text`) is never invoked there — it runs only
inside the fallback chain after a located payload fails to decode, and
then unconditionally for all four fields. -/
theorem C7_no_label_pass (resp : List Char) (h : findJsonMatch resp = none) :
    processResponse resp = finalizeResult (text_parse_result resp) :=
  processResponse_nomatch h

/-- Claim C7 witness: a concrete response with no payload. -/
theorem C7_witness :
    findJsonMatch (S ("xyz")) = none ∧
    processResponse (S ("xyz")) = finalizeResult (text_parse_result (S ("xyz"))) :=
  ⟨rfl, C7_no_label_pass (S ("xyz")) rfl⟩

/-- Claim C7 counterexample: `respC7` has no payload, its label line would
be captured by the label extractor, yet the returned record's
`non_functional_requirements` is empty — the label extractor did not run
on the section extractor's empty field. -/
theorem C7_counter :
    findJsonMatch respC7 = none ∧
    lookupD (processResponse respC7) nfrK = some (pyList []) ∧
    labelItems nfrLabels respC7 = [S ("高性能要求")] := by
  exact ⟨rfl, rfl, rfl⟩

/-- Claim C8 (amended): in the functional-requirements section every
in-section content line contributes exactly one entry — the extractor is
the per-line cascade mapped over the content lines (with the default
placeholder only when nothing at all was collected) — and a line passing
the primary heuristic (length strictly between 3 and 100 with a marker
verb) is kept in its cleaned form.  Lines failing the heuristic are still
appended by the secondary filter or the unconditional final append — see
the counterexample. -/
theorem C8_every_line_appended (msg : List Char) :
    extract_functional_reqs msg =
      (if msg.isEmpty then []
       else if ((funcContentLoop (splitOnChar '\n' msg) false).map funcEntry).isEmpty then
         [S ("需要提供具体的功能需求")]
       else (funcContentLoop (splitOnChar '\n' msg) false).map funcEntry) ∧
    ∀ line : List Char, funcPrimaryAccept (funcClean line) = true →
      funcEntry line = funcClean line := by
  constructor
  · unfold extract_functional_reqs
    rw [extractFuncLoop_map]
  · intro line h
    unfold funcEntry
    rw [if_pos h]

/-- Claim C8 witness: a line passing the primary heuristic is kept in
cleaned form. -/
theorem C8_witness :
    funcPrimaryAccept (funcClean (S ("系统应支持登录"))) = true ∧
    funcEntry (S ("系统应支持登录")) = funcClean (S ("系统应支持登录")) :=
  ⟨rfl, (C8_every_line_appended (S ("x"))).2 (S ("系统应支持登录")) rfl⟩

/-- Prose input with a functional-requirements heading and one content line
that fails the acceptance heuristic (no marker verb). -/
def msgC8 : List Char :=
  S ("功能需求:\nabcdefgh")

/-- Claim C8 counterexample: the line `abcdefgh` fails the acceptance
heuristic, yet it is appended to the functional requirements. -/
theorem C8_counter :
    funcPrimaryAccept (funcClean (S ("abcdefgh"))) = false ∧
    extract_functional_reqs msgC8 = [S ("abcdefgh")] := by
  exact ⟨rfl, rfl⟩

/-- Claim C9 (amended): `_build_structured_result` copies each of the three
plain fields verbatim whenever the key is present — whatever the shape of
the value — and substitutes an empty list only when the key is absent;
only `test_scenarios` is shape-checked (converted entry-wise when
list-shaped, replaced by the default scenario singleton otherwise). -/
theorem C9_build_get (m : PyDict) :
    (∀ v, lookupD m frK = some v →
      lookupD (build_structured_result m) frK = some v) ∧
    (lookupD m frK = none →
      lookupD (build_structured_result m) frK = some (pyList [])) ∧
    (∀ v, lookupD m nfrK = some v →
      lookupD (build_structured_result m) nfrK = some v) ∧
    (lookupD m nfrK = none →
      lookupD (build_structured_result m) nfrK = some (pyList [])) ∧
    (∀ v, lookupD m raK = some v →
      lookupD (build_structured_result m) raK = some v) ∧
    (lookupD m raK = none →
      lookupD (build_structured_result m) raK = some (pyList [])) ∧
    (∀ l, lookupD m tsK = some (pyList l) →
      lookupD (build_structured_result m) tsK =
        some (pyList (buildScenarios l []))) ∧
    (∀ v, lookupD m tsK = some v → isPyList v = false →
      lookupD (build_structured_result m) tsK =
        some (pyList [defaultScenario])) ∧
    (lookupD m tsK = none →
      lookupD (build_structured_result m) tsK =
        some (pyList [defaultScenario])) := by
  refine ⟨?_, ?_, ?_, ?_, ?_, ?_, ?_, ?_, ?_⟩
  · intro v hv; rw [build_lookup_fr]; unfold getD; rw [hv]
  · intro hv; rw [build_lookup_fr]; unfold getD; rw [hv]
  · intro v hv; rw [build_lookup_nfr]; unfold getD; rw [hv]
  · intro hv; rw [build_lookup_nfr]; unfold getD; rw [hv]
  · intro v hv; rw [build_lookup_ra]; unfold getD; rw [hv]
  · intro hv; rw [build_lookup_ra]; unfold getD; rw [hv]
  · intro l hl; rw [build_lookup_ts]; unfold tsVal; rw [hl]
  · intro v hv hnl
    rw [build_lookup_ts]
    unfold tsVal
    rw [hv]
    cases v with
    | pyList l => simp [isPyList] at hnl
    | pyStr a => rfl
    | pyNum a => rfl
    | pyBool a => rfl
    | pyNone => rfl
    | pyDict a => rfl
    | pyScenario a b c => rfl
  · intro hv; rw [build_lookup_ts]; unfold tsVal; rw [hv]

/-- Claim C9 witness: a present list is copied and an absent key becomes an
empty list. -/
theorem C9_witness :
    lookupD (build_structured_result [(nfrK, pyList [pyStr (S ("x"))])]) nfrK =
      some (pyList [pyStr (S ("x"))]) ∧
    lookupD (build_structured_result [(nfrK, pyList [pyStr (S ("x"))])]) frK =
      some (pyList []) := by
  have h := C9_build_get [(nfrK, pyList [pyStr (S ("x"))])]
  exact ⟨h.2.2.1 (pyList [pyStr (S ("x"))]) rfl, h.2.1 rfl⟩

/-- Claim C9 counterexample: a present non-list value for
`functional_requirements` is copied verbatim instead of being replaced by
an empty sequence. -/
theorem C9_counter :
    lookupD (build_structured_result [(frK, pyStr (S ("abc")))]) frK =
      some (pyStr (S ("abc"))) ∧
    isPyList (pyStr (S ("abc"))) = false := by
  exact ⟨rfl, rfl⟩

/-- Claim C10: the `last_analysis` slot is set to exactly the returned
record on every path that returns a record without an `error` key (the
empty-input default, the falsy-response default, and the full pipeline),
and keeps its prior value when `analyze` raises or returns the error-shaped
dict. -/
theorem C10_last_analysis (env : AgentEnv) (doc : List Char)
    (last : Option PyDict) :
    ((analyze env doc last).1 = Outcome.raised → (analyze env doc last).2 = last) ∧
    (∀ r : PyDict, (analyze env doc last).1 = Outcome.ret r →
      (lookupD r errK = none → (analyze env doc last).2 = some r) ∧
      (lookupD r errK ≠ none → (analyze env doc last).2 = last)) := by
  have herr : lookupD error_dict errK = some (pyStr (S ("结果生成失败"))) := rfl
  unfold analyze
  by_cases hd : (pyStrip doc).isEmpty = true
  · rw [if_pos hd]
    refine ⟨fun h => Outcome.noConfusion h, fun r hr => ?_⟩
    have hdr : default_result = r := by injection hr
    refine ⟨fun _ => by rw [← hdr], fun hne => ?_⟩
    rw [← hdr] at hne
    exact (hne rfl).elim
  · rw [if_neg hd]
    by_cases hc : env.chatOk = true
    · rw [if_neg (fun hx => hx hc)]
      by_cases hm : env.lastMsgOk = true
      · rw [if_neg (fun hx => hx hm)]
        cases hresp : env.response with
        | none =>
          refine ⟨fun h => Outcome.noConfusion h, fun r hr => ?_⟩
          have hdr : default_result = r := by injection hr
          refine ⟨fun _ => by rw [← hdr], fun hne => ?_⟩
          rw [← hdr] at hne
          exact (hne rfl).elim
        | some resp =>
          dsimp only
          by_cases hs : env.saveOk = true
          · rw [if_neg (fun hx => hx hs)]
            refine ⟨fun h => Outcome.noConfusion h, fun r hr => ?_⟩
            have hdr : processResponse resp = r := by injection hr
            refine ⟨fun _ => by rw [← hdr], fun hne => ?_⟩
            rw [← hdr] at hne
            exact (hne (processResponse_no_err resp)).elim
          · rw [if_pos (fun hx => hs hx)]
            refine ⟨fun h => Outcome.noConfusion h, fun r hr => ?_⟩
            have hdr : error_dict = r := by injection hr
            refine ⟨fun h0 => ?_, fun _ => rfl⟩
            rw [← hdr] at h0
            rw [herr] at h0
            cases h0
      · rw [if_pos (fun hx => hm hx)]
        refine ⟨fun h => Outcome.noConfusion h, fun r hr => ?_⟩
        have hdr : error_dict = r := by injection hr
        refine ⟨fun h0 => ?_, fun _ => rfl⟩
        rw [← hdr] at h0
        rw [herr] at h0
        cases h0
    · rw [if_pos (fun hx => hc hx)]
      exact ⟨fun _ => rfl, fun r hr => by cases hr⟩

/-- Environment in which the save collaborator raises. -/
def envC10 : AgentEnv :=
  ⟨true, true, some (S ("hi")), false⟩

/-- Claim C10 witness: when the save collaborator raises, the error-shaped
dict is returned and the slot keeps its prior value. -/
theorem C10_witness :
    (analyze envC10 (S ("x")) (some default_result)).2 = some default_result := by
  have h := (C10_last_analysis envC10 (S ("x")) (some default_result)).2
    error_dict rfl
  refine h.2 (fun hc => ?_)
  rw [show lookupD error_dict errK = some (pyStr (S ("结果生成失败"))) from rfl] at hc
  cases hc
